import Mathlib

/-!
# Verification of the image-selector grid controller

A shallow embedding of the grid focus/selection/grouping controller of the
image-selector application (`utils.py`, `selector_app.py`, `config.py`),
together with proofs about the mask engine, the grid-state transition
functions and the commit coordinator.

Modelling conventions:
* A cell's CSS class string (e.g. `"grouped-on focus keep"`) is represented
  as its list of space-separated tokens (`List String`).  All tokens the
  program ever stores come from the fixed vocabulary
  `{"grouped-on", "grouped-off", "focus", "keep", "delete"}`, none of which
  is a substring of another, so Python's substring tests
  (`'focus' in my_class` on the joined string) coincide with list
  membership on the token list, and `split`/`join` round-trip.
* Python `%` on non-negative ints is `Nat.mod`; where the left operand can
  be negative (`(j-1) % n_cols`) we use `Int.emod`, which agrees with
  Python's `%` for a positive modulus.
* The Dash callback state `cell_last_clicked` starts out null and is tested
  for falsiness (`if not cell_last_clicked: cell_last_clicked = [0,0]`); we
  model it as `Option (Nat × Nat)` and the falsiness substitution as
  `Option.getD (0, 0)`.
* Code paths that raise in Python (an unbound local, a failed `assert`)
  are modelled by returning `none`.
-/

namespace ImageSelector

/-! ## Definitions

### Mask engine (`utils.create_flat_mask`) -/

/--
One iteration of the outer loop of `create_flat_mask` for a single
committed group: walk the current mask; `avail` counts the `false`
(still-available) entries already passed.  The source initialises
`available_count = -1` and increments it *before* the membership test, so
at each `false` entry the tested value equals the number of earlier
`false` entries, which is exactly `avail` here.
-/
def mask_group_pass (group : List Nat) : List Bool → Nat → List Bool
  | [], _ => []
  | b :: rest, avail =>
    if b then
      true :: mask_group_pass group rest avail
    else
      decide (avail ∈ group) :: mask_group_pass group rest (avail + 1)

/--
`utils.create_flat_mask`: unpack the per-commit position lists into a flat
boolean mask over the original image container.  Groups are processed in
commit order (oldest first); each group's positions are indices into the
list of entries still `false` at the start of that group's pass.
-/
def create_flat_mask (image_mask : List (List Nat)) (len_image_container : Nat) : List Bool :=
  image_mask.foldl (fun m group => mask_group_pass group m 0) (List.replicate len_image_container false)

/-- Pointwise implication of boolean masks: every `true` entry of the first
mask is `true` in the second, and the lengths agree. -/
def maskLe (m₁ m₂ : List Bool) : Prop :=
  m₁.length = m₂.length ∧ ∀ k < m₁.length, m₁.getD k false = true → m₂.getD k false = true

instance (m₁ m₂ : List Bool) : Decidable (maskLe m₁ m₂) := by
  unfold maskLe; infer_instance

/-! ### Cell class-string manipulation (`utils.py`, class-name functions)

A cell's class string is represented by its list of space-separated tokens.
-/

/-- `utils.class_toggle_grouped`: swap the `grouped-on`/`grouped-off` token. -/
def class_toggle_grouped (class_list : List String) : List String :=
  class_list.map fun c =>
    if c = "grouped-on" then "grouped-off"
    else if c = "grouped-off" then "grouped-on"
    else c

/-- `utils.class_toggle_focus`: remove the `focus` token if present, else append it. -/
def class_toggle_focus (class_list : List String) : List String :=
  if "focus" ∈ class_list then class_list.filter (fun c => c ≠ "focus")
  else class_list ++ ["focus"]

/-- `utils.class_toggle_keep`: remove `keep` if present, else drop `delete` and append `keep`. -/
def class_toggle_keep (class_list : List String) : List String :=
  if "keep" ∈ class_list then class_list.filter (fun c => c ≠ "keep")
  else class_list.filter (fun c => c ≠ "delete") ++ ["keep"]

/-- `utils.class_toggle_delete`: remove `delete` if present, else drop `keep` and append `delete`. -/
def class_toggle_delete (class_list : List String) : List String :=
  if "delete" ∈ class_list then class_list.filter (fun c => c ≠ "delete")
  else class_list.filter (fun c => c ≠ "keep") ++ ["delete"]

/-- `utils.class_turn_off_keep_delete`: drop both label tokens. -/
def class_turn_off_keep_delete (class_list : List String) : List String :=
  class_list.filter (fun c => ¬ (c ∈ ["keep", "delete"]))

/-! ### Grid state and transition functions -/

/-- A move direction (`move-left` / `move-right` / `move-up` / `move-down`). -/
inductive Dir | left | right | up | down
deriving DecidableEq

/-- Python's `(x - 1) % n` on an int that may be `-1`; agrees with
`Int.emod` for a positive modulus. -/
def pyDec (x n : Nat) : Nat := (((x : Int) - 1) % (n : Int)).toNat

/-- Python's `(x - k) % n` for a possibly negative `x - k`. -/
def pyDecBy (x k n : Nat) : Nat := (((x : Int) - (k : Int)) % (n : Int)).toNat

/--
The grid controller state threaded through the Dash callbacks: the list of
per-cell class-token lists (row-major, index `i * cols_max + j`) and the
stored `cell_last_clicked` pair (initially null).
-/
structure GridState where
  classes : List (List String)
  lastClicked : Option (Nat × Nat)
deriving DecidableEq

/-- The flat index of a `(row, col)` pair in the `rows_max × cols_max` grid. -/
@[reducible] def cellIdx (cols_max : Nat) (p : Nat × Nat) : Nat := p.1 * cols_max + p.2

/--
`utils.resize_grid_pressed` (class-name part): every cell reset to
`grouped-off`, cell `(0,0)` additionally gets `focus`
(`'grouped-off focus' if i+j == 0 else 'grouped-off'`), and
`cell_last_clicked` is reset to `[0, 0]`.
-/
def resize_grid_pressed (rows_max cols_max : Nat) : GridState :=
  { classes := (List.range rows_max).flatMap fun i =>
      (List.range cols_max).map fun j =>
        if i + j = 0 then ["grouped-off", "focus"] else ["grouped-off"],
    lastClicked := some (0, 0) }

/--
`utils.image_cell_pressed` (class-name part): toggle the clicked cell
`cell_loc` and transfer focus from the previous last-clicked cell.
Returns `none` on the code paths that raise in Python: the unbound
`new_class` when both the clicked cell and a *different* last-clicked cell
carry `focus`, and the failed `assert 'grouped-on' in ...` when the clicked
cell has neither grouped token.
-/
def image_cell_pressed (cell_loc : Nat × Nat) (cols_max : Nat)
    (classes : List (List String)) (cell_last_clicked : Option (Nat × Nat)) :
    Option (List (List String) × (Nat × Nat)) :=
  let pcc := classes.getD (cell_loc.2 + cell_loc.1 * cols_max) []
  let lc := cell_last_clicked.getD (0, 0)
  let step1 : Option (List (List String)) :=
    if lc ≠ cell_loc then
      let pIdx := lc.2 + lc.1 * cols_max
      let pc := classes.getD pIdx []
      if "focus" ∉ pc then some (classes.set pIdx pc)
      else if "focus" ∈ pc ∧ "focus" ∉ pcc then
        some (classes.set pIdx (class_toggle_focus pc))
      else none
    else some classes
  let ncc : Option (List String) :=
    if "grouped-off" ∈ pcc ∧ "focus" ∉ pcc then
      some (class_toggle_grouped (class_toggle_focus pcc))
    else if "grouped-off" ∈ pcc ∧ "focus" ∈ pcc then
      some (class_toggle_grouped pcc)
    else if "grouped-on" ∈ pcc ∧ "focus" ∉ pcc then
      some (class_toggle_focus pcc)
    else if "grouped-on" ∈ pcc then
      some (class_turn_off_keep_delete (class_toggle_grouped (class_toggle_focus pcc)))
    else none
  match step1, ncc with
  | some cs, some nc => some (cs.set (cell_loc.1 * cols_max + cell_loc.2) nc, cell_loc)
  | _, _ => none

/-- The wrap-around neighbour of cell `q` in direction `dir` inside the
visible `n_rows × n_cols` rectangle (`utils.direction_key_pressed`). -/
def dirTarget (dir : Dir) (n_rows n_cols : Nat) (q : Nat × Nat) : Nat × Nat :=
  match dir with
  | .left => (q.1, pyDec q.2 n_cols)
  | .right => (q.1, (q.2 + 1) % n_cols)
  | .up => (pyDec q.1 n_rows, q.2)
  | .down => ((q.1 + 1) % n_rows, q.2)

/--
`utils.direction_key_pressed`: remove `focus` from the last-clicked cell,
compute the wrap-around neighbour in direction `dir`, and (when the
neighbour's class string read from the *original* state list is non-empty,
i.e. truthy) add `focus` there and update `cell_last_clicked`.  The
handler then builds the zoom-panel image with
`img_idx = cell_last_clicked[1] + cell_last_clicked[0]*n_cols;
image_list[img_idx] ... if len(image_list) > 0 else empty_image`: when the
mask-filtered `image_list` is non-empty but shorter than `img_idx + 1`
this lookup raises `IndexError`, the callback aborts and no output is
applied — modelled as `none`.
-/
def direction_key_pressed (dir : Dir) (n_rows n_cols cols_max : Nat)
    (image_list : List String)
    (classes : List (List String)) (cell_last_clicked : Option (Nat × Nat)) :
    Option (List (List String) × (Nat × Nat)) :=
  let lc := cell_last_clicked.getD (0, 0)
  let idx := lc.1 * cols_max + lc.2
  let my_class := classes.getD idx []
  let new_classes :=
    if "focus" ∈ my_class then classes.set idx (class_toggle_focus my_class) else classes
  let t := dirTarget dir n_rows n_cols lc
  let check_class := classes.getD (t.2 + t.1 * cols_max) []
  let r : List (List String) × (Nat × Nat) :=
    if check_class ≠ [] then
      let current_idx := t.1 * cols_max + t.2
      (new_classes.set current_idx (class_toggle_focus (new_classes.getD current_idx [])), t)
    else
      (new_classes, lc)
  let img_idx := r.2.2 + r.2.1 * n_cols
  if 0 < image_list.length ∧ image_list.length ≤ img_idx then none
  else some r

/--
`utils.keep_delete_pressed` (class-name part): if the last-clicked cell
carries both `focus` and `grouped-on`, toggle its `keep` (for the keep
button) or `delete` (for the delete button) token; otherwise change
nothing.
-/
def keep_delete_pressed (button_keep : Bool) (cols_max : Nat)
    (classes : List (List String)) (cell_last_clicked : Option (Nat × Nat)) :
    List (List String) × (Nat × Nat) :=
  let lc := cell_last_clicked.getD (0, 0)
  let idx := lc.1 * cols_max + lc.2
  let my_class := classes.getD idx []
  if "focus" ∈ my_class ∧ "grouped-on" ∈ my_class then
    (classes.set idx
        (if button_keep then class_toggle_keep my_class else class_toggle_delete my_class),
      lc)
  else
    (classes, lc)

/-- Replace cell `idx` by the image of its current class under `g` (the
body of the `new_classes[cell_list_idx] = ...` loop assignments). -/
def setCellWith (g : List String → List String) (cs : List (List String)) (idx : Nat) :
    List (List String) :=
  cs.set idx (g (cs.getD idx []))

/--
`utils.toggle_group_in_first_n_rows` (class-name part): for every cell in
rows `0 .. min row rows_max` and the first `n_cols` columns, toggle the
grouped token and strip both label tokens.
-/
def toggle_group_in_first_n_rows (row n_cols rows_max cols_max : Nat)
    (classes : List (List String)) (cell_last_clicked : Option (Nat × Nat)) :
    List (List String) × (Nat × Nat) :=
  let lc := cell_last_clicked.getD (0, 0)
  let idxs := (List.range (min row rows_max)).flatMap fun i =>
    (List.range n_cols).map fun j => j + i * cols_max
  (idxs.foldl
      (setCellWith fun c => class_turn_off_keep_delete (class_toggle_grouped c))
      classes,
    lc)

/-- The landing cell of a `k`-cell horizontal jump with wrap-around. -/
def jumpTarget (jump_left : Bool) (n_cells n_cols : Nat) (q : Nat × Nat) : Nat × Nat :=
  if jump_left then (q.1, pyDecBy q.2 n_cells n_cols)
  else (q.1, (q.2 + n_cells) % n_cols)

/--
Modelled from the spec: `utils.jump_focus_n_cells` is invoked by
`selector_app.activate_deactivate_cells` for the jump-left/right buttons
but its definition is absent from the source tree (only the call site and
its argument list exist).  Per the spec (§4.3 JumpMove) it moves the focus
`n_cells` cells to the left or right in one step "as a direct
modulo-arithmetic jump", with the same wrap semantics and the same
focus/last-clicked bookkeeping as `direction_key_pressed` — including the
sibling handlers' trailing zoom-panel lookup
`image_list[cell_last_clicked[1] + cell_last_clicked[0]*n_cols]` guarded
by `len(image_list) > 0`, whose `IndexError` aborts the callback
(modelled as `none`).
-/
def jump_focus_n_cells (jump_left : Bool) (n_cells n_rows n_cols cols_max : Nat)
    (image_list : List String)
    (classes : List (List String)) (cell_last_clicked : Option (Nat × Nat)) :
    Option (List (List String) × (Nat × Nat)) :=
  let _ := n_rows
  let lc := cell_last_clicked.getD (0, 0)
  let idx := lc.1 * cols_max + lc.2
  let my_class := classes.getD idx []
  let new_classes :=
    if "focus" ∈ my_class then classes.set idx (class_toggle_focus my_class) else classes
  let t := jumpTarget jump_left n_cells n_cols lc
  let check_class := classes.getD (t.2 + t.1 * cols_max) []
  let r : List (List String) × (Nat × Nat) :=
    if check_class ≠ [] then
      let current_idx := t.1 * cols_max + t.2
      (new_classes.set current_idx (class_toggle_focus (new_classes.getD current_idx [])), t)
    else
      (new_classes, lc)
  let img_idx := r.2.2 + r.2.1 * n_cols
  if 0 < image_list.length ∧ image_list.length ≤ img_idx then none
  else some r

/-! ### Commit coordinator (`selector_app.complete_or_undo_image_group`, complete branch) -/

/-- One directory's committed-group history: three parallel lists, one
entry per commit (the `image_data[image_path]` dict of the source). -/
structure History where
  position : List (List Nat)
  keep : List (List Bool)
  filename : List (List String)
deriving DecidableEq

/-- Append one committed group to all three parallel history lists. -/
def History.append1 (h : History) (p : List Nat) (k : List Bool) (f : List String) : History :=
  { position := h.position ++ [p], keep := h.keep ++ [k], filename := h.filename ++ [f] }

/-- The data accumulated by the cell walk of the commit handler. -/
structure CollectResult where
  positions : List Nat
  keeps : List Bool
  filenames : List String
  deletes : List String
  focus : Option (Nat × String)
deriving DecidableEq

/-- The accumulator at the start of the commit walk. -/
def emptyCollect : CollectResult :=
  { positions := [], keeps := [], filenames := [], deletes := [], focus := none }

/--
The body of the commit walk for one visible cell `(i, j)`
(`selector_app.complete_or_undo_image_group`, lines 611–643): compute
`list_pos = j + i * n_rows`, skip the cell entirely when `list_pos` runs
past the unmasked filename list, otherwise record the grouped position and
filename, the focus position and filename (last focused cell wins), and
the keep/delete flag — the flag is recorded for every labelled cell,
whether or not it is grouped, exactly as in the source.
-/
def commit_cell_step (n_rows cols_max : Nat) (classes : List (List String))
    (unmasked : List String) (acc : CollectResult) (ij : Nat × Nat) : CollectResult :=
  let my_class := classes.getD (ij.2 + ij.1 * cols_max) []
  let list_pos := ij.2 + ij.1 * n_rows
  if list_pos < unmasked.length then
    let image_filename := unmasked.getD list_pos ""
    let acc1 :=
      if "grouped-on" ∈ my_class then
        { acc with positions := acc.positions ++ [list_pos],
                   filenames := acc.filenames ++ [image_filename] }
      else acc
    let acc2 :=
      if "focus" ∈ my_class then { acc1 with focus := some (list_pos, image_filename) } else acc1
    if "keep" ∈ my_class then { acc2 with keeps := acc2.keeps ++ [true] }
    else if "delete" ∈ my_class then
      { acc2 with keeps := acc2.keeps ++ [false], deletes := acc2.deletes ++ [image_filename] }
    else acc2
  else acc

/-- The visible cells in row-major order (`for i in range(n_rows): for j in range(n_cols)`). -/
def rowMajorCells (n_rows n_cols : Nat) : List (Nat × Nat) :=
  (List.range n_rows).flatMap fun i => (List.range n_cols).map fun j => (i, j)

/-- The full commit walk over all visible cells. -/
def commit_collect (n_rows n_cols cols_max : Nat) (classes : List (List String))
    (unmasked : List String) : CollectResult :=
  (rowMajorCells n_rows n_cols).foldl (commit_cell_step n_rows cols_max classes unmasked)
    emptyCollect

/-- Validity rule A of the commit: some cell is grouped and the number of
grouped cells equals the number of labelled cells. -/
def ruleA (c : CollectResult) : Prop :=
  c.positions ≠ [] ∧ c.positions.length = c.keeps.length

/-- Validity rule B of the commit (single-image shortcut): no cell is
grouped and a focused cell was found. -/
def ruleB (c : CollectResult) : Prop :=
  c.positions = [] ∧ c.focus.isSome

instance (c : CollectResult) : Decidable (ruleA c) := by
  unfold ruleA; infer_instance

instance (c : CollectResult) : Decidable (ruleB c) := by
  unfold ruleB; infer_instance

/--
The `complete` branch of `selector_app.complete_or_undo_image_group`:
walk the visible cells, then append one history entry if validity rule A
holds (`len(grouped_cell_positions) > 0 and len(grouped_cell_positions) ==
len(grouped_cell_keeps)`), else the rule-B single-image shortcut if no
cell is grouped but a focused cell exists (appending a size-1 keep-group),
else raise `PreventUpdate` (no state change).  The second component is the
list of filenames `record_grouped_data` deletes from the working directory
(those with `keep = False`).
-/
def complete_group (n_rows n_cols cols_max : Nat) (classes : List (List String))
    (unmasked : List String) (h : History) : History × List String :=
  let c := commit_collect n_rows n_cols cols_max classes unmasked
  if c.positions ≠ [] ∧ c.positions.length = c.keeps.length then
    (h.append1 c.positions c.keeps c.filenames,
      (c.filenames.zip c.keeps).filterMap fun fk => if fk.2 then none else some fk.1)
  else
    match c.positions, c.focus with
    | [], some pf => (h.append1 [pf.1] [true] [pf.2], [])
    | _, _ => (h, [])

/-! ### Reachable states and invariants -/

/-- The per-run grid parameters: the visible rectangle `n_rows × n_cols`,
the virtual grid bounds `rows_max × cols_max` (`ROWS_MAX`/`COLS_MAX`,
7 × 7 in `config.py`), and the mask-filtered `image_list` the callbacks
receive (constant between commits, consulted by the zoom-panel lookup). -/
structure Params where
  n_rows : Nat
  n_cols : Nat
  rows_max : Nat
  cols_max : Nat
  image_list : List String

/-- A non-empty visible rectangle inside the virtual grid (the grid-size
dropdown offers 2..`ROWS_MAX`). -/
def Params.Valid (p : Params) : Prop :=
  0 < p.n_rows ∧ p.n_rows ≤ p.rows_max ∧ 0 < p.n_cols ∧ p.n_cols ≤ p.cols_max

instance (p : Params) : Decidable p.Valid := by
  unfold Params.Valid; infer_instance

/-- Repackage a transition function's `(classes, cell_last_clicked)` result
as the stored grid state. -/
def outState (r : List (List String) × (Nat × Nat)) : GridState :=
  { classes := r.1, lastClicked := some r.2 }

/-- The state after a directional-move press: the handler's output when it
returns, the unchanged state when the handler raises (Dash applies no
output from a callback that errors). -/
def dirStepState (p : Params) (d : Dir) (s : GridState) : GridState :=
  match direction_key_pressed d p.n_rows p.n_cols p.cols_max p.image_list
      s.classes s.lastClicked with
  | some out => outState out
  | none => s

/-- The state after a select-rows-up-to toggle. -/
def rowsStepState (p : Params) (n : Nat) (s : GridState) : GridState :=
  outState (toggle_group_in_first_n_rows n p.n_cols p.rows_max p.cols_max s.classes s.lastClicked)

/-- The state after a keep/delete button press. -/
def keepDeleteStepState (p : Params) (b : Bool) (s : GridState) : GridState :=
  outState (keep_delete_pressed b p.cols_max s.classes s.lastClicked)

/-- The state after a jump press: the handler's output when it returns,
the unchanged state when the handler raises. -/
def jumpStepState (p : Params) (jl : Bool) (k : Nat) (s : GridState) : GridState :=
  match jump_focus_n_cells jl k p.n_rows p.n_cols p.cols_max p.image_list
      s.classes s.lastClicked with
  | some out => outState out
  | none => s

/--
The grid states reachable from a grid resize through the transition
callbacks: cell clicks (restricted to the visible rectangle, where the
grid buttons exist), directional moves, select-rows toggles, keep/delete
presses, and further resizes.
-/
inductive Reach (p : Params) : GridState → Prop
  | init : Reach p (resize_grid_pressed p.rows_max p.cols_max)
  | resize {s : GridState} : Reach p s → Reach p (resize_grid_pressed p.rows_max p.cols_max)
  | click {s : GridState} {r c : Nat} {out : List (List String) × (Nat × Nat)} :
      Reach p s → r < p.n_rows → c < p.n_cols →
      image_cell_pressed (r, c) p.cols_max s.classes s.lastClicked = some out →
      Reach p (outState out)
  | move {s : GridState} (d : Dir) : Reach p s → Reach p (dirStepState p d s)
  | rows {s : GridState} (n : Nat) : Reach p s → Reach p (rowsStepState p n s)
  | keepDel {s : GridState} (b : Bool) : Reach p s → Reach p (keepDeleteStepState p b s)

/-- A well-formed cell class: exactly one of the two grouped tokens, and a
label token only on a grouped-on cell. -/
def GoodCell (c : List String) : Prop :=
  (("grouped-on" ∈ c ∧ "grouped-off" ∉ c) ∨ ("grouped-off" ∈ c ∧ "grouped-on" ∉ c))
    ∧ (("keep" ∈ c ∨ "delete" ∈ c) → "grouped-on" ∈ c)

instance (c : List String) : Decidable (GoodCell c) := by
  unfold GoodCell; infer_instance

/-- The run invariant: the class list spans the virtual grid, the stored
last-clicked cell lies in the visible rectangle, `focus` appears at most
on the last-clicked cell, and every cell class is well-formed. -/
structure Inv (p : Params) (s : GridState) : Prop where
  len : s.classes.length = p.rows_max * p.cols_max
  lc : ∃ q : Nat × Nat, s.lastClicked = some q ∧ q.1 < p.n_rows ∧ q.2 < p.n_cols
  focus_lc : ∀ k, k < s.classes.length →
    (∀ q : Nat × Nat, s.lastClicked = some q → k ≠ cellIdx p.cols_max q) →
    "focus" ∉ s.classes.getD k []
  good : ∀ k, k < s.classes.length → GoodCell (s.classes.getD k [])

/-- The number of grid cells carrying the `focus` token. -/
def focusCount (s : GridState) : Nat :=
  s.classes.countP fun c => decide ("focus" ∈ c)

/-! ### Focus normal form (for the wrap and jump-equivalence proofs) -/

/-- Strip the `focus` token from every cell. -/
def stripF (cs : List (List String)) : List (List String) :=
  cs.map fun c => c.filter (fun t => t ≠ "focus")

/-- The classes with `focus` stripped everywhere and re-appended on cell `k`. -/
def focusAt (cs : List (List String)) (k : Nat) : List (List String) :=
  (stripF cs).set k ((stripF cs).getD k [] ++ ["focus"])

/-! ### Concrete post-commit scenario (full 7×7 view, 48 unmasked images)

After a commit the unmasked image list can be shorter than the visible
grid; `config.N_GRID = 49` cells stay rendered.  With 48 remaining images
the bottom-right cell (6,6) has `img_idx = 48` out of range, so any move
or jump landing there raises in the zoom lookup and the callback applies
no output. -/

/-- Parameters after a commit left 48 unmasked images under the full
7×7 view. -/
def pCommit : Params := ⟨7, 7, 7, 7, List.replicate 48 "img.jpg"⟩

/-- The state reached from the resize state by six Down moves: focus and
`cell_last_clicked` at (6,0), every other cell plain `grouped-off`. -/
def sCommit : GridState :=
  ⟨(List.replicate 49 ["grouped-off"]).set 42 ["grouped-off", "focus"], some (6, 0)⟩

/-- The state reached from `sCommit` by four Right moves: focus and
`cell_last_clicked` at (6,4). -/
def sJump : GridState :=
  ⟨(List.replicate 49 ["grouped-off"]).set 46 ["grouped-off", "focus"], some (6, 4)⟩

/-! ## Theorems

### Mask engine -/

theorem mask_group_pass_length (g : List Nat) :
    ∀ (m : List Bool) (a : Nat), (mask_group_pass g m a).length = m.length := by
  intro m
  induction m with
  | nil => intro a; rfl
  | cons b rest ih =>
    intro a
    by_cases hb : b
    · simp [mask_group_pass, hb, ih]
    · simp [mask_group_pass, hb, ih]

theorem mask_group_pass_mono (g : List Nat) :
    ∀ (m : List Bool) (a k : Nat), m.getD k false = true →
      (mask_group_pass g m a).getD k false = true := by
  intro m
  induction m with
  | nil => intro a k h; simp [List.getD] at h
  | cons b rest ih =>
    intro a k h
    cases k with
    | zero =>
      simp [List.getD] at h
      simp [mask_group_pass, h, List.getD]
    | succ k' =>
      simp [List.getD] at h
      by_cases hb : b
      · simpa [mask_group_pass, hb, List.getD] using ih a k' (by simpa [List.getD] using h)
      · simpa [mask_group_pass, hb, List.getD] using ih (a + 1) k' (by simpa [List.getD] using h)

theorem create_flat_mask_take_succ (H : List (List Nat)) (k N : Nat) (hk : k < H.length) :
    create_flat_mask (H.take (k + 1)) N
      = mask_group_pass (H.get ⟨k, hk⟩) (create_flat_mask (H.take k) N) 0 := by
  unfold create_flat_mask
  rw [List.take_succ, List.getElem?_eq_getElem hk, List.foldl_append]
  simp [List.get_eq_getElem]

/--
**C1**: `create_flat_mask` reproduces the spec's worked examples exactly:
for history `[[0,1],[0,1,2]]` and total length 9 it returns
`[T,T,T,T,T,F,F,F,F]`, and for history `[[7,8],[0,1,3,4]]` and total
length 10 it returns `[T,T,F,T,T,F,F,T,T,F]`.
-/
theorem create_flat_mask_examples :
    create_flat_mask [[0, 1], [0, 1, 2]] 9
        = [true, true, true, true, true, false, false, false, false]
      ∧ create_flat_mask [[7, 8], [0, 1, 3, 4]] 10
        = [true, true, false, true, true, false, false, true, true, false] := by
  constructor <;> decide

/--
**C2**: for every committed-group history `H`, every `k ≤ H.length` and
every total length `N`, the mask computed from the prefix `H.take k` is
pointwise ≤ the mask computed from `H.take (k+1)` (appending a group never
turns a `true` entry back to `false`), and re-running `create_flat_mask` on
the prefix `H.take k` reproduces the mask exactly as it stood after the
first `k` groups of the full run: the full run is the continuation of the
prefix run over the remaining groups.
-/
theorem create_flat_mask_monotone_and_replayable (H : List (List Nat)) (k N : Nat)
    (hk : k ≤ H.length) :
    maskLe (create_flat_mask (H.take k) N) (create_flat_mask (H.take (k + 1)) N)
      ∧ create_flat_mask H N
          = (H.drop k).foldl (fun m group => mask_group_pass group m 0)
              (create_flat_mask (H.take k) N) := by
  constructor
  · rcases Nat.lt_or_ge k H.length with hlt | hge
    · rw [create_flat_mask_take_succ H k N hlt]
      refine ⟨(mask_group_pass_length _ _ _).symm, ?_⟩
      intro j _ hj
      exact mask_group_pass_mono _ _ _ _ hj
    · have hk' : k = H.length := Nat.le_antisymm hk hge
      rw [hk']
      rw [List.take_length, List.take_of_length_le (by omega)]
      exact ⟨rfl, fun j _ hj => hj⟩
  · conv_lhs => rw [← List.take_append_drop k H]
    unfold create_flat_mask
    rw [List.foldl_append]

/-- Witness for C2 at the concrete history `[[0,1],[0,1,2]]`, `k = 1`, `N = 9`. -/
theorem create_flat_mask_monotone_and_replayable_witness :
    1 ≤ ([[0, 1], [0, 1, 2]] : List (List Nat)).length
      ∧ (maskLe (create_flat_mask ([[0, 1], [0, 1, 2]].take 1) 9)
            (create_flat_mask ([[0, 1], [0, 1, 2]].take 2) 9)
          ∧ create_flat_mask [[0, 1], [0, 1, 2]] 9
              = ([[0, 1], [0, 1, 2]].drop 1).foldl (fun m group => mask_group_pass group m 0)
                  (create_flat_mask ([[0, 1], [0, 1, 2]].take 1) 9)) :=
  ⟨by decide, create_flat_mask_monotone_and_replayable [[0, 1], [0, 1, 2]] 1 9 (by decide)⟩

/-! ### List access helpers -/

theorem getD_set_self {α : Type} (l : List α) (i : Nat) (x d : α) (h : i < l.length) :
    (l.set i x).getD i d = x := by
  simp [List.getD_eq_getElem?_getD, List.getElem?_set_self h]

theorem getD_set_ne {α : Type} (l : List α) (i j : Nat) (x d : α) (h : i ≠ j) :
    (l.set i x).getD j d = l.getD j d := by
  simp [List.getD_eq_getElem?_getD, List.getElem?_set_ne h]

theorem set_getD_self {α : Type} (l : List α) (i : Nat) (d : α) (h : i < l.length) :
    l.set i (l.getD i d) = l := by
  apply List.ext_getElem?
  intro j
  rw [List.getElem?_set]
  split
  · next heq =>
    subst heq
    simp [h, List.getD_eq_getElem?_getD, List.getElem?_eq_getElem h]
  · rfl

theorem cellIdx_lt {i j n_rows n_cols rows_max cols_max : Nat}
    (hi : i < n_rows) (hj : j < n_cols) (hr : n_rows ≤ rows_max) (hc : n_cols ≤ cols_max) :
    i * cols_max + j < rows_max * cols_max :=
  calc i * cols_max + j < i * cols_max + cols_max := by omega
    _ = (i + 1) * cols_max := by ring
    _ ≤ rows_max * cols_max := Nat.mul_le_mul_right cols_max (by omega)

theorem cellIdx_inj {i₁ j₁ i₂ j₂ cols_max : Nat}
    (hj₁ : j₁ < cols_max) (hj₂ : j₂ < cols_max)
    (h : i₁ * cols_max + j₁ = i₂ * cols_max + j₂) : i₁ = i₂ ∧ j₁ = j₂ := by
  have hj : j₁ = j₂ := by
    have e₁ : (i₁ * cols_max + j₁) % cols_max = j₁ := by
      rw [Nat.add_comm, Nat.add_mul_mod_self_right, Nat.mod_eq_of_lt hj₁]
    have e₂ : (i₂ * cols_max + j₂) % cols_max = j₂ := by
      rw [Nat.add_comm, Nat.add_mul_mod_self_right, Nat.mod_eq_of_lt hj₂]
    rw [← e₁, ← e₂, h]
  subst hj
  exact ⟨Nat.eq_of_mul_eq_mul_right (by omega) (Nat.add_right_cancel h), rfl⟩

/-! ### Token membership through the class-name functions -/

theorem mem_toggle_grouped_on (c : List String) :
    "grouped-on" ∈ class_toggle_grouped c ↔ "grouped-off" ∈ c := by
  unfold class_toggle_grouped
  rw [List.mem_map]
  constructor
  · rintro ⟨a, ha, heq⟩
    split_ifs at heq with h₁ h₂
    · exact absurd heq (by decide)
    · rwa [h₂] at ha
    · rw [heq] at h₁; exact absurd rfl h₁
  · intro h
    exact ⟨"grouped-off", h, by decide⟩

theorem mem_toggle_grouped_off (c : List String) :
    "grouped-off" ∈ class_toggle_grouped c ↔ "grouped-on" ∈ c := by
  unfold class_toggle_grouped
  rw [List.mem_map]
  constructor
  · rintro ⟨a, ha, heq⟩
    split_ifs at heq with h₁ h₂
    · rwa [h₁] at ha
    · exact absurd heq (by decide)
    · rw [heq] at h₂; exact absurd rfl h₂
  · intro h
    exact ⟨"grouped-on", h, by decide⟩

theorem mem_toggle_grouped_other (c : List String) (t : String)
    (h₁ : t ≠ "grouped-on") (h₂ : t ≠ "grouped-off") :
    t ∈ class_toggle_grouped c ↔ t ∈ c := by
  unfold class_toggle_grouped
  rw [List.mem_map]
  constructor
  · rintro ⟨a, ha, heq⟩
    split_ifs at heq with ha₁ ha₂
    · exact absurd heq.symm h₂
    · exact absurd heq.symm h₁
    · rwa [heq] at ha
  · intro ht
    exact ⟨t, ht, by rw [if_neg h₁, if_neg h₂]⟩

theorem mem_toggle_focus_self (c : List String) :
    "focus" ∈ class_toggle_focus c ↔ "focus" ∉ c := by
  unfold class_toggle_focus
  split_ifs with h
  · simp [List.mem_filter, h]
  · simp [h]

theorem mem_toggle_focus_other (c : List String) (t : String) (h : t ≠ "focus") :
    t ∈ class_toggle_focus c ↔ t ∈ c := by
  unfold class_toggle_focus
  split_ifs with hf
  · simp [List.mem_filter, h]
  · simp [h]

theorem mem_toggle_keep_self (c : List String) :
    "keep" ∈ class_toggle_keep c ↔ "keep" ∉ c := by
  unfold class_toggle_keep
  split_ifs with h
  · simp [List.mem_filter, h]
  · simp [List.mem_filter, h]

theorem mem_toggle_keep_other (c : List String) (t : String)
    (h₁ : t ≠ "keep") (h₂ : t ≠ "delete") :
    t ∈ class_toggle_keep c ↔ t ∈ c := by
  unfold class_toggle_keep
  split_ifs with h
  · simp [List.mem_filter, h₁]
  · simp [List.mem_filter, h₁, h₂]

theorem mem_toggle_delete_self (c : List String) :
    "delete" ∈ class_toggle_delete c ↔ "delete" ∉ c := by
  unfold class_toggle_delete
  split_ifs with h
  · simp [List.mem_filter, h]
  · simp [List.mem_filter, h]

theorem mem_toggle_delete_other (c : List String) (t : String)
    (h₁ : t ≠ "keep") (h₂ : t ≠ "delete") :
    t ∈ class_toggle_delete c ↔ t ∈ c := by
  unfold class_toggle_delete
  split_ifs with h
  · simp [List.mem_filter, h₂]
  · simp [List.mem_filter, h₁, h₂]

theorem keep_not_mem_turn_off (c : List String) :
    "keep" ∉ class_turn_off_keep_delete c := by
  unfold class_turn_off_keep_delete
  simp [List.mem_filter]

theorem delete_not_mem_turn_off (c : List String) :
    "delete" ∉ class_turn_off_keep_delete c := by
  unfold class_turn_off_keep_delete
  simp [List.mem_filter]

theorem mem_turn_off_other (c : List String) (t : String)
    (h₁ : t ≠ "keep") (h₂ : t ≠ "delete") :
    t ∈ class_turn_off_keep_delete c ↔ t ∈ c := by
  unfold class_turn_off_keep_delete
  simp [List.mem_filter, h₁, h₂]

theorem mem_toggle_keep_delete (c : List String) :
    "delete" ∈ class_toggle_keep c ↔ ("keep" ∈ c ∧ "delete" ∈ c) := by
  unfold class_toggle_keep
  split_ifs with h
  · simp [List.mem_filter, h]
  · simp [List.mem_filter, h]

theorem mem_toggle_delete_keep (c : List String) :
    "keep" ∈ class_toggle_delete c ↔ ("keep" ∈ c ∧ "delete" ∈ c) := by
  unfold class_toggle_delete
  split_ifs with h
  · simp [List.mem_filter, h]
  · simp [List.mem_filter, h]

/-! ### Well-formedness preservation -/

theorem goodCell_nonempty {c : List String} (h : GoodCell c) : c ≠ [] := by
  rcases h.1 with ⟨hm, _⟩ | ⟨hm, _⟩ <;> exact List.ne_nil_of_mem hm

theorem goodCell_toggle_focus {c : List String} (h : GoodCell c) :
    GoodCell (class_toggle_focus c) := by
  obtain ⟨hg, hl⟩ := h
  constructor
  · rcases hg with ⟨h₁, h₂⟩ | ⟨h₁, h₂⟩
    · exact Or.inl ⟨(mem_toggle_focus_other c _ (by decide)).mpr h₁,
        fun hm => h₂ ((mem_toggle_focus_other c _ (by decide)).mp hm)⟩
    · exact Or.inr ⟨(mem_toggle_focus_other c _ (by decide)).mpr h₁,
        fun hm => h₂ ((mem_toggle_focus_other c _ (by decide)).mp hm)⟩
  · intro hm
    refine (mem_toggle_focus_other c _ (by decide)).mpr (hl ?_)
    rcases hm with hm | hm
    · exact Or.inl ((mem_toggle_focus_other c _ (by decide)).mp hm)
    · exact Or.inr ((mem_toggle_focus_other c _ (by decide)).mp hm)

theorem goodCell_group_on {c : List String} (h : GoodCell c) (hoff : "grouped-off" ∈ c) :
    GoodCell (class_toggle_grouped c) := by
  obtain ⟨hg, hl⟩ := h
  have hon : "grouped-on" ∉ c := by
    rcases hg with ⟨_, h₂⟩ | ⟨_, h₂⟩
    · exact absurd hoff h₂
    · exact h₂
  constructor
  · exact Or.inl ⟨(mem_toggle_grouped_on c).mpr hoff,
      fun hm => hon ((mem_toggle_grouped_off c).mp hm)⟩
  · intro hm
    exfalso
    rcases hm with hm | hm
    · exact hon (hl (Or.inl ((mem_toggle_grouped_other c _ (by decide) (by decide)).mp hm)))
    · exact hon (hl (Or.inr ((mem_toggle_grouped_other c _ (by decide) (by decide)).mp hm)))

theorem goodCell_turn_off_toggle {c : List String} (h : GoodCell c) :
    GoodCell (class_turn_off_keep_delete (class_toggle_grouped c)) := by
  obtain ⟨hg, _⟩ := h
  constructor
  · rcases hg with ⟨h₁, h₂⟩ | ⟨h₁, h₂⟩
    · refine Or.inr ⟨?_, ?_⟩
      · exact (mem_turn_off_other _ _ (by decide) (by decide)).mpr
          ((mem_toggle_grouped_off c).mpr h₁)
      · intro hm
        exact h₂ ((mem_toggle_grouped_on c).mp
          ((mem_turn_off_other _ _ (by decide) (by decide)).mp hm))
    · refine Or.inl ⟨?_, ?_⟩
      · exact (mem_turn_off_other _ _ (by decide) (by decide)).mpr
          ((mem_toggle_grouped_on c).mpr h₁)
      · intro hm
        exact h₂ ((mem_toggle_grouped_off c).mp
          ((mem_turn_off_other _ _ (by decide) (by decide)).mp hm))
  · intro hm
    rcases hm with hm | hm
    · exact absurd hm (keep_not_mem_turn_off _)
    · exact absurd hm (delete_not_mem_turn_off _)

theorem goodCell_toggle_keep {c : List String} (h : GoodCell c) (hon : "grouped-on" ∈ c) :
    GoodCell (class_toggle_keep c) := by
  obtain ⟨hg, _⟩ := h
  have hoff : "grouped-off" ∉ c := by
    rcases hg with ⟨_, h₂⟩ | ⟨_, h₃⟩
    · exact h₂
    · exact absurd hon h₃
  constructor
  · exact Or.inl ⟨(mem_toggle_keep_other c _ (by decide) (by decide)).mpr hon,
      fun hm => hoff ((mem_toggle_keep_other c _ (by decide) (by decide)).mp hm)⟩
  · intro _
    exact (mem_toggle_keep_other c _ (by decide) (by decide)).mpr hon

theorem goodCell_toggle_delete {c : List String} (h : GoodCell c) (hon : "grouped-on" ∈ c) :
    GoodCell (class_toggle_delete c) := by
  obtain ⟨hg, _⟩ := h
  have hoff : "grouped-off" ∉ c := by
    rcases hg with ⟨_, h₂⟩ | ⟨h₂, h₃⟩
    · exact h₂
    · exact absurd hon h₃
  constructor
  · exact Or.inl ⟨(mem_toggle_delete_other c _ (by decide) (by decide)).mpr hon,
      fun hm => hoff ((mem_toggle_delete_other c _ (by decide) (by decide)).mp hm)⟩
  · intro _
    exact (mem_toggle_delete_other c _ (by decide) (by decide)).mpr hon

/-! ### C10 — null `cell_last_clicked` defaults to cell (0,0) -/

/--
**C10**: when the stored last-clicked cell is still null (falsy), the
handlers that need a focus origin do not fail: `image_cell_pressed`,
`direction_key_pressed` and `keep_delete_pressed` behave exactly as if the
last-clicked cell were `(0, 0)` — a directional move departs from `(0,0)`
and keep/delete reads and updates `(0,0)`'s state.
-/
theorem null_last_clicked_defaults (cell_loc : Nat × Nat) (d : Dir) (b : Bool)
    (n_rows n_cols cols_max : Nat) (image_list : List String)
    (classes : List (List String)) :
    image_cell_pressed cell_loc cols_max classes none
        = image_cell_pressed cell_loc cols_max classes (some (0, 0))
      ∧ direction_key_pressed d n_rows n_cols cols_max image_list classes none
          = direction_key_pressed d n_rows n_cols cols_max image_list classes (some (0, 0))
      ∧ keep_delete_pressed b cols_max classes none
          = keep_delete_pressed b cols_max classes (some (0, 0)) :=
  ⟨rfl, rfl, rfl⟩

/-! ### C7 — keep/delete -/

/--
**C7** counterexample: on a focused, grouped cell that already carries the
`keep` label, pressing the Keep button does *not* set the label to Keep —
`class_toggle_keep` toggles, so the label is removed and the cell ends up
unlabelled.
-/
theorem keep_press_removes_existing_label :
    ("focus" ∈ (["grouped-on", "focus", "keep"] : List String)
        ∧ "grouped-on" ∈ (["grouped-on", "focus", "keep"] : List String))
      ∧ (keep_delete_pressed true 1 [["grouped-on", "focus", "keep"]] (some (0, 0))).1
          = [["grouped-on", "focus"]]
      ∧ "keep" ∉
          ((keep_delete_pressed true 1 [["grouped-on", "focus", "keep"]] (some (0, 0))).1.getD
            0 []) := by
  refine ⟨⟨?_, ?_⟩, ?_, ?_⟩ <;> decide

/--
**C7** (amended): the Keep (resp. Delete) press *toggles* the label of the
last-clicked cell when that cell is focused and grouped: if the cell does
not already carry the pressed label it is set, clearing the opposite label
(the two labels are mutually exclusive); if the cell already carries it,
the label is removed.  When the cell is not both focused and grouped the
press is a no-op leaving every cell unchanged.
-/
theorem keep_delete_toggles_label (b : Bool) (cols_max : Nat) (s : GridState) :
    let classes := s.classes
    let q := s.lastClicked.getD (0, 0)
    let idx := q.1 * cols_max + q.2
    let c := classes.getD idx []
    let r := keep_delete_pressed b cols_max classes s.lastClicked
    (¬ ("focus" ∈ c ∧ "grouped-on" ∈ c) → r = (classes, q))
      ∧ ("focus" ∈ c → "grouped-on" ∈ c → idx < classes.length →
          ¬ ("keep" ∈ c ∧ "delete" ∈ c) →
          r.2 = q
            ∧ (b = true →
                (("keep" ∈ r.1.getD idx []) ↔ "keep" ∉ c)
                  ∧ "delete" ∉ r.1.getD idx [])
            ∧ (b = false →
                (("delete" ∈ r.1.getD idx []) ↔ "delete" ∉ c)
                  ∧ "keep" ∉ r.1.getD idx [])) := by
  intro classes q idx c r
  constructor
  · intro hno
    unfold_let r
    unfold keep_delete_pressed
    rw [if_neg hno]
  · intro hf hg hlt hx
    have hr : r = (classes.set idx (if b then class_toggle_keep c else class_toggle_delete c), q) := by
      unfold_let r
      unfold keep_delete_pressed
      rw [if_pos ⟨hf, hg⟩]
    refine ⟨by rw [hr], ?_, ?_⟩
    · rintro rfl
      rw [hr]
      simp only [if_pos rfl]
      rw [getD_set_self _ _ _ _ hlt]
      exact ⟨mem_toggle_keep_self c, fun hm => hx ((mem_toggle_keep_delete c).mp hm)⟩
    · rintro rfl
      rw [hr]
      simp only [if_neg (by decide : ¬ (false = true))]
      rw [getD_set_self _ _ _ _ hlt]
      exact ⟨mem_toggle_delete_self c, fun hm => hx ((mem_toggle_delete_keep c).mp hm)⟩

/-- Witness for the amended C7 at a concrete focused, grouped, unlabelled
cell: pressing Keep sets the `keep` label and leaves `delete` absent. -/
theorem keep_delete_toggles_label_witness :
    ("focus" ∈ (["grouped-on", "focus"] : List String)
        ∧ "grouped-on" ∈ (["grouped-on", "focus"] : List String)
        ∧ ¬ ("keep" ∈ (["grouped-on", "focus"] : List String)
              ∧ "delete" ∈ (["grouped-on", "focus"] : List String)))
      ∧ ((keep_delete_pressed true 1 [["grouped-on", "focus"]] (some (0, 0))).2 = (0, 0)
          ∧ (true = true →
              (("keep" ∈ (keep_delete_pressed true 1 [["grouped-on", "focus"]]
                    (some (0, 0))).1.getD 0 [])
                  ↔ "keep" ∉ (["grouped-on", "focus"] : List String))
                ∧ "delete" ∉ (keep_delete_pressed true 1 [["grouped-on", "focus"]]
                    (some (0, 0))).1.getD 0 [])
          ∧ (true = false →
              (("delete" ∈ (keep_delete_pressed true 1 [["grouped-on", "focus"]]
                    (some (0, 0))).1.getD 0 [])
                  ↔ "delete" ∉ (["grouped-on", "focus"] : List String))
                ∧ "keep" ∉ (keep_delete_pressed true 1 [["grouped-on", "focus"]]
                    (some (0, 0))).1.getD 0 [])) :=
  ⟨⟨by decide, by decide, by decide⟩,
    (keep_delete_toggles_label true 1 ⟨[["grouped-on", "focus"]], some (0, 0)⟩).2
      (by decide) (by decide) (by decide) (by decide)⟩

/-! ### Commit coordinator -/

theorem commit_cell_step_skip (n_rows cols_max : Nat) (classes : List (List String))
    (unmasked : List String) (acc : CollectResult) (ij : Nat × Nat)
    (h : ¬ (ij.2 + ij.1 * n_rows < unmasked.length)) :
    commit_cell_step n_rows cols_max classes unmasked acc ij = acc := by
  unfold commit_cell_step
  rw [if_neg h]

theorem commit_cell_step_positions (n_rows cols_max : Nat) (classes : List (List String))
    (unmasked : List String) (acc : CollectResult) (ij : Nat × Nat) :
    (commit_cell_step n_rows cols_max classes unmasked acc ij).positions
      = if ij.2 + ij.1 * n_rows < unmasked.length
            ∧ "grouped-on" ∈ classes.getD (ij.2 + ij.1 * cols_max) []
        then acc.positions ++ [ij.2 + ij.1 * n_rows]
        else acc.positions := by
  unfold commit_cell_step
  dsimp only
  split_ifs <;> first | rfl | (exfalso; tauto)

theorem foldl_commit_positions (n_rows cols_max : Nat) (classes : List (List String))
    (unmasked : List String) :
    ∀ (l : List (Nat × Nat)) (acc : CollectResult),
      (l.foldl (commit_cell_step n_rows cols_max classes unmasked) acc).positions
        = acc.positions
            ++ ((l.filter fun ij =>
                  ij.2 + ij.1 * n_rows < unmasked.length
                    ∧ "grouped-on" ∈ classes.getD (ij.2 + ij.1 * cols_max) []).map
                fun ij => ij.2 + ij.1 * n_rows) := by
  intro l
  induction l with
  | nil => intro acc; simp
  | cons x l ih =>
    intro acc
    rw [List.foldl_cons, ih]
    by_cases hx : x.2 + x.1 * n_rows < unmasked.length
        ∧ "grouped-on" ∈ classes.getD (x.2 + x.1 * cols_max) []
    · rw [List.filter_cons_of_pos (by simpa using hx), List.map_cons,
        commit_cell_step_positions, if_pos hx]
      simp
    · rw [List.filter_cons_of_neg (by simpa using hx),
        commit_cell_step_positions, if_neg hx]

theorem foldl_skip {α β : Type} (f : β → α → β) (p : α → Bool)
    (hf : ∀ acc x, p x = false → f acc x = acc) :
    ∀ (l : List α) (acc : β), l.foldl f acc = (l.filter p).foldl f acc := by
  intro l
  induction l with
  | nil => intro acc; rfl
  | cons x l ih =>
    intro acc
    cases hx : p x with
    | true => rw [List.foldl_cons, List.filter_cons_of_pos hx, List.foldl_cons, ih]
    | false => rw [List.foldl_cons, List.filter_cons_of_neg (by simp [hx]), hf acc x hx, ih]

/--
**C4**: in the commit walk, the position recorded for the visible cell at
row `r`, column `c` is `c + r * n_rows` — multiplied by the visible *row*
count, not `n_cols` and not the grid's maximum width: the collected
position list is exactly the row-major list of `c + r * n_rows` over the
visible grouped cells whose position is in range; and every cell whose
computed position is `≥ len(unmasked)` is skipped silently — the whole
walk equals the walk over only the in-range cells, so such cells
contribute nothing to any collected field and the commit does not fail.
-/
theorem commit_walk_position_formula (n_rows n_cols cols_max : Nat)
    (classes : List (List String)) (unmasked : List String) :
    (commit_collect n_rows n_cols cols_max classes unmasked).positions
        = ((rowMajorCells n_rows n_cols).filter fun ij =>
              ij.2 + ij.1 * n_rows < unmasked.length
                ∧ "grouped-on" ∈ classes.getD (ij.2 + ij.1 * cols_max) []).map
            (fun ij => ij.2 + ij.1 * n_rows)
      ∧ commit_collect n_rows n_cols cols_max classes unmasked
          = ((rowMajorCells n_rows n_cols).filter fun ij =>
                ij.2 + ij.1 * n_rows < unmasked.length).foldl
              (commit_cell_step n_rows cols_max classes unmasked) emptyCollect := by
  constructor
  · rw [commit_collect, foldl_commit_positions]
    rfl
  · rw [commit_collect]
    exact foldl_skip _ _
      (fun acc x hx => commit_cell_step_skip _ _ _ _ _ _ (by simpa using hx)) _ _

theorem History.append1_ne (h : History) (p : List Nat) (k : List Bool) (f : List String) :
    h.append1 p k f ≠ h := by
  intro he
  have hlen := congrArg (fun x => x.position.length) he
  simp [History.append1] at hlen

/--
**C3**: a commit appends exactly one entry to the directory's history iff
validity rule A holds (some cell is grouped and the number of grouped
cells equals the number of labelled cells — the entry then holds the
collected positions, keep flags and filenames) or validity rule B holds
(no cell is grouped and a focused cell exists — the entry is then the
size-1 group `([focus_position], [true], [focus_filename])`, keep `true`
regardless of any label the cell carried).  When neither rule applies the
commit is a silent no-op: the history is unchanged and no file is deleted
(hence the mask, a function of the history, is unchanged too).
-/
theorem complete_group_cases_aux (c : CollectResult) (h : History)
    (r : History × List String)
    (hr : r = if c.positions ≠ [] ∧ c.positions.length = c.keeps.length then
        (h.append1 c.positions c.keeps c.filenames,
          (c.filenames.zip c.keeps).filterMap fun fk => if fk.2 then none else some fk.1)
      else match c.positions, c.focus with
        | [], some pf => (h.append1 [pf.1] [true] [pf.2], [])
        | _, _ => (h, [])) :
    ((∃ e : List Nat × List Bool × List String, r.1 = h.append1 e.1 e.2.1 e.2.2)
        ↔ (ruleA c ∨ ruleB c))
      ∧ (ruleA c → r.1 = h.append1 c.positions c.keeps c.filenames)
      ∧ (ruleB c → ∃ pf : Nat × String, c.focus = some pf
            ∧ r.1 = h.append1 [pf.1] [true] [pf.2])
      ∧ (¬ ruleA c → ¬ ruleB c → r = (h, [])) := by
  subst hr
  by_cases hA : c.positions ≠ [] ∧ c.positions.length = c.keeps.length
  · rw [if_pos hA]
    exact ⟨⟨fun _ => Or.inl hA, fun _ => ⟨(c.positions, c.keeps, c.filenames), rfl⟩⟩,
      fun _ => rfl, fun hB => absurd hB.1 hA.1, fun hA' => absurd hA hA'⟩
  · rw [if_neg hA]
    cases hpos : c.positions with
    | nil =>
      cases hfoc : c.focus with
      | none =>
        refine ⟨⟨?_, ?_⟩, fun hA'' => absurd hA'' hA, fun hB => ?_, fun _ _ => rfl⟩
        · rintro ⟨e, he⟩
          exact absurd he.symm (History.append1_ne h e.1 e.2.1 e.2.2)
        · rintro (hA'' | hB)
          · exact absurd hA'' hA
          · have hs := hB.2
            rw [hfoc] at hs
            exact absurd hs (by decide)
        · have hs := hB.2
          rw [hfoc] at hs
          exact absurd hs (by decide)
      | some pf =>
        have hB : ruleB c := ⟨hpos, by rw [hfoc]; rfl⟩
        exact ⟨⟨fun _ => Or.inr hB, fun _ => ⟨([pf.1], [true], [pf.2]), rfl⟩⟩,
          fun hA'' => absurd hA'' hA, fun _ => ⟨pf, rfl, rfl⟩, fun _ hB' => absurd hB hB'⟩
    | cons p ps =>
      have hB' : ¬ ruleB c := fun hB => by
        have h₁ := hB.1
        rw [hpos] at h₁
        exact absurd h₁ (by simp)
      have hmatch : (match (p :: ps : List Nat), c.focus with
          | [], some pf => (h.append1 [pf.1] [true] [pf.2], [])
          | _, _ => ((h, []) : History × List String)) = (h, []) := by
        cases c.focus with
        | none => rfl
        | some pf => rfl
      rw [hmatch]
      refine ⟨⟨?_, ?_⟩, fun hA'' => absurd hA'' hA, fun hB => absurd hB hB', fun _ _ => rfl⟩
      · rintro ⟨e, he⟩
        exact absurd he.symm (History.append1_ne h e.1 e.2.1 e.2.2)
      · rintro (hA'' | hB)
        · exact absurd hA'' hA
        · exact absurd hB hB'

/--
**C3**: a commit appends exactly one entry to the directory's history iff
validity rule A holds (some cell is grouped and the number of grouped
cells equals the number of labelled cells — the entry then holds the
collected positions, keep flags and filenames) or validity rule B holds
(no cell is grouped and a focused cell exists — the entry is then the
size-1 group `([focus_position], [true], [focus_filename])`, keep `true`
regardless of any label the cell carried).  When neither rule applies the
commit is a silent no-op: the history is unchanged and no file is deleted
(hence the mask, a function of the history, is unchanged too).
-/
theorem complete_group_append_iff (n_rows n_cols cols_max : Nat)
    (classes : List (List String)) (unmasked : List String) (h : History) :
    let c := commit_collect n_rows n_cols cols_max classes unmasked
    let r := complete_group n_rows n_cols cols_max classes unmasked h
    ((∃ e : List Nat × List Bool × List String, r.1 = h.append1 e.1 e.2.1 e.2.2)
        ↔ (ruleA c ∨ ruleB c))
      ∧ (ruleA c → r.1 = h.append1 c.positions c.keeps c.filenames)
      ∧ (ruleB c → ∃ pf : Nat × String, c.focus = some pf
            ∧ r.1 = h.append1 [pf.1] [true] [pf.2])
      ∧ (¬ ruleA c → ¬ ruleB c → r = (h, [])) := by
  intro c r
  exact complete_group_cases_aux c h r rfl

/-- Witness for C3 at a concrete two-cell grid: one grouped cell labelled
`keep` commits under rule A and appends exactly that entry. -/
theorem complete_group_append_iff_witness :
    ruleA (commit_collect 1 2 2 [["grouped-on", "focus", "keep"], ["grouped-off"]] ["a.jpg", "b.jpg"])
      ∧ (complete_group 1 2 2 [["grouped-on", "focus", "keep"], ["grouped-off"]] ["a.jpg", "b.jpg"]
            ⟨[], [], []⟩).1
          = History.append1 ⟨[], [], []⟩
              (commit_collect 1 2 2 [["grouped-on", "focus", "keep"], ["grouped-off"]]
                ["a.jpg", "b.jpg"]).positions
              (commit_collect 1 2 2 [["grouped-on", "focus", "keep"], ["grouped-off"]]
                ["a.jpg", "b.jpg"]).keeps
              (commit_collect 1 2 2 [["grouped-on", "focus", "keep"], ["grouped-off"]]
                ["a.jpg", "b.jpg"]).filenames :=
  ⟨by decide,
    (complete_group_append_iff 1 2 2 [["grouped-on", "focus", "keep"], ["grouped-off"]]
        ["a.jpg", "b.jpg"] ⟨[], [], []⟩).2.1 (by decide)⟩

/-! ### The resize state -/

theorem getD_replicate {α : Type} (n k : Nat) (x d : α) :
    (List.replicate n x).getD k d = if k < n then x else d := by
  rw [List.getD_eq_getElem?_getD, List.getElem?_replicate]
  split <;> rfl

theorem flatMap_const_replicate {α β : Type} (n : Nat) (b : β) :
    ∀ (l : List α) (f : α → List β), (∀ a ∈ l, f a = List.replicate n b) →
      l.flatMap f = List.replicate (l.length * n) b := by
  intro l
  induction l with
  | nil => intro f _; simp
  | cons a l ih =>
    intro f hf
    rw [List.flatMap_cons, hf a (List.mem_cons_self a l),
      ih f (fun x hx => hf x (List.mem_cons_of_mem a hx))]
    rw [← List.replicate_add]
    congr 1
    simp [Nat.succ_mul, Nat.add_comm]

theorem resize_classes_eq (r c : Nat) :
    (resize_grid_pressed (r + 1) (c + 1)).classes
      = ["grouped-off", "focus"] :: List.replicate (c + r * (c + 1)) ["grouped-off"] := by
  unfold resize_grid_pressed
  dsimp only
  rw [List.range_succ_eq_map, List.flatMap_cons]
  have hrow0 : (List.range (c + 1)).map
      (fun j => if 0 + j = 0 then ["grouped-off", "focus"] else ["grouped-off"])
        = ["grouped-off", "focus"] :: List.replicate c ["grouped-off"] := by
    rw [List.range_succ_eq_map, List.map_cons]
    congr 1
    rw [List.map_map]
    refine List.eq_replicate_iff.mpr ⟨by simp, ?_⟩
    rintro b hb
    rw [List.mem_map] at hb
    obtain ⟨x, _, rfl⟩ := hb
    simp [Function.comp, Nat.succ_eq_add_one]
  have hrest : ((List.range r).map Nat.succ).flatMap
      (fun i => (List.range (c + 1)).map
        (fun j => if i + j = 0 then ["grouped-off", "focus"] else ["grouped-off"]))
        = List.replicate (r * (c + 1)) ["grouped-off"] := by
    have := flatMap_const_replicate (c + 1) (["grouped-off"] : List String)
      ((List.range r).map Nat.succ)
      (fun i => (List.range (c + 1)).map
        (fun j => if i + j = 0 then ["grouped-off", "focus"] else ["grouped-off"]))
      ?_
    · rwa [List.length_map, List.length_range] at this
    · intro a ha
      rw [List.mem_map] at ha
      obtain ⟨x, _, rfl⟩ := ha
      refine List.eq_replicate_iff.mpr ⟨by simp, ?_⟩
      rintro b hb
      rw [List.mem_map] at hb
      obtain ⟨y, _, rfl⟩ := hb
      simp [Nat.succ_eq_add_one]
  rw [hrow0, hrest]
  rw [List.cons_append, ← List.replicate_add]

theorem resize_classes_len (rm cm : Nat) :
    (resize_grid_pressed rm cm).classes.length = rm * cm := by
  unfold resize_grid_pressed
  dsimp only
  rw [List.length_flatMap]
  have : List.map (List.length ∘ fun i => (List.range cm).map
      (fun j => if i + j = 0 then ["grouped-off", "focus"] else ["grouped-off"]))
        (List.range rm) = List.replicate rm cm := by
    refine List.eq_replicate_iff.mpr ⟨by simp, ?_⟩
    rintro b hb
    rw [List.mem_map] at hb
    obtain ⟨x, _, rfl⟩ := hb
    simp [Function.comp]
  rw [this, List.sum_replicate, smul_eq_mul]

theorem resize_getD (r c k : Nat) :
    (resize_grid_pressed (r + 1) (c + 1)).classes.getD k []
      = if k = 0 then ["grouped-off", "focus"]
        else if k < (r + 1) * (c + 1) then ["grouped-off"] else [] := by
  rw [resize_classes_eq]
  cases k with
  | zero => rfl
  | succ k' =>
    have hne : ¬ (k' + 1 = 0) := by omega
    rw [if_neg hne]
    show (List.replicate (c + r * (c + 1)) ["grouped-off"]).getD k' [] = _
    rw [getD_replicate]
    have harith : k' + 1 < (r + 1) * (c + 1) ↔ k' < c + r * (c + 1) := by
      constructor <;> intro h <;> nlinarith
    by_cases hk : k' < c + r * (c + 1)
    · rw [if_pos hk, if_pos (harith.mpr hk)]
    · rw [if_neg hk, if_neg (fun hc => hk (harith.mp hc))]

theorem inv_resize (p : Params) (hv : p.Valid) :
    Inv p (resize_grid_pressed p.rows_max p.cols_max) := by
  obtain ⟨hnr, hrm, hnc, hcm⟩ := hv
  obtain ⟨r, hr⟩ : ∃ r, p.rows_max = r + 1 := ⟨p.rows_max - 1, by omega⟩
  obtain ⟨c, hc⟩ : ∃ c, p.cols_max = c + 1 := ⟨p.cols_max - 1, by omega⟩
  refine ⟨resize_classes_len _ _, ⟨(0, 0), rfl, hnr, hnc⟩, ?_, ?_⟩
  · intro k hk hkq
    have hk0 : k ≠ 0 := by
      intro h0
      exact hkq (0, 0) rfl (by simpa [cellIdx] using h0)
    rw [hr, hc, resize_getD, if_neg hk0]
    rw [resize_classes_len, hr, hc] at hk
    rw [if_pos hk]
    decide
  · intro k hk
    rw [resize_classes_len, hr, hc] at hk
    rw [hr, hc, resize_getD]
    by_cases hk0 : k = 0
    · rw [if_pos hk0]
      decide
    · rw [if_neg hk0, if_pos hk]
      decide

/-! ### Invariant preservation -/

theorem inv_mk (p : Params) (cs : List (List String)) (lcq : Nat × Nat)
    (hlen : cs.length = p.rows_max * p.cols_max)
    (h₁ : lcq.1 < p.n_rows) (h₂ : lcq.2 < p.n_cols)
    (hfoc : ∀ k, k < cs.length → k ≠ cellIdx p.cols_max lcq → "focus" ∉ cs.getD k [])
    (hgood : ∀ k, k < cs.length → GoodCell (cs.getD k [])) :
    Inv p ⟨cs, some lcq⟩ := by
  refine ⟨hlen, ⟨lcq, rfl, h₁, h₂⟩, ?_, hgood⟩
  intro k hk hkq
  exact hfoc k hk (hkq lcq rfl)

theorem inv_keep_delete (p : Params) (hv : p.Valid) (s : GridState) (hInv : Inv p s)
    (b : Bool) : Inv p (keepDeleteStepState p b s) := by
  obtain ⟨q, hq, hq1, hq2⟩ := hInv.lc
  obtain ⟨hnr, hrm, hnc, hcm⟩ := hv
  have hqIdx : q.1 * p.cols_max + q.2 < s.classes.length := by
    rw [hInv.len]; exact cellIdx_lt hq1 hq2 hrm hcm
  unfold keepDeleteStepState outState keep_delete_pressed
  rw [hq]
  simp only [Option.getD_some]
  by_cases hg : "focus" ∈ s.classes.getD (q.1 * p.cols_max + q.2) []
      ∧ "grouped-on" ∈ s.classes.getD (q.1 * p.cols_max + q.2) []
  · rw [if_pos hg]
    dsimp only
    refine inv_mk p _ q (by rw [List.length_set, hInv.len]) hq1 hq2 ?_ ?_
    · intro k hk hkq
      rw [List.length_set] at hk
      rw [getD_set_ne _ _ _ _ _ (show q.1 * p.cols_max + q.2 ≠ k from fun h => hkq h.symm)]
      exact hInv.focus_lc k hk (fun q' hq' => by rw [hq] at hq'; cases hq'; exact hkq)
    · intro k hk
      rw [List.length_set] at hk
      by_cases hkq : q.1 * p.cols_max + q.2 = k
      · subst hkq
        rw [getD_set_self _ _ _ _ hqIdx]
        cases b
        · exact goodCell_toggle_delete (hInv.good _ hqIdx) hg.2
        · exact goodCell_toggle_keep (hInv.good _ hqIdx) hg.2
      · rw [getD_set_ne _ _ _ _ _ hkq]
        exact hInv.good k hk
  · rw [if_neg hg]
    exact inv_mk p _ q hInv.len hq1 hq2
      (fun k hk hkq => hInv.focus_lc k hk (fun q' hq' => by rw [hq] at hq'; cases hq'; exact hkq))
      hInv.good

theorem foldl_setCellWith_length (g : List String → List String) :
    ∀ (idxs : List Nat) (cs : List (List String)),
      (idxs.foldl (setCellWith g) cs).length = cs.length := by
  intro idxs
  induction idxs with
  | nil => intro cs; rfl
  | cons a idxs ih =>
    intro cs
    rw [List.foldl_cons, ih]
    unfold setCellWith
    rw [List.length_set]

theorem foldl_setCellWith_focus (g : List String → List String)
    (hf : ∀ c, "focus" ∈ g c ↔ "focus" ∈ c) :
    ∀ (idxs : List Nat) (cs : List (List String)) (k : Nat),
      ("focus" ∈ (idxs.foldl (setCellWith g) cs).getD k []
        ↔ "focus" ∈ cs.getD k []) := by
  intro idxs
  induction idxs with
  | nil => intro cs k; exact Iff.rfl
  | cons a idxs ih =>
    intro cs k
    rw [List.foldl_cons, ih]
    unfold setCellWith
    by_cases hak : a = k
    · subst hak
      by_cases ha : a < cs.length
      · rw [getD_set_self _ _ _ _ ha]
        exact hf _
      · rw [List.set_eq_of_length_le (by omega)]
    · rw [getD_set_ne _ _ _ _ _ hak]

theorem foldl_setCellWith_good (g : List String → List String)
    (hg : ∀ c, GoodCell c → GoodCell (g c)) :
    ∀ (idxs : List Nat) (cs : List (List String)),
      (∀ k, k < cs.length → GoodCell (cs.getD k [])) →
      (∀ k, k < cs.length → GoodCell ((idxs.foldl (setCellWith g) cs).getD k [])) := by
  intro idxs
  induction idxs with
  | nil => intro cs h k hk; exact h k hk
  | cons a idxs ih =>
    intro cs h k hk
    rw [List.foldl_cons]
    have hlen : (setCellWith g cs a).length = cs.length := by
      unfold setCellWith; rw [List.length_set]
    refine ih (setCellWith g cs a) ?_ k (by rw [hlen]; exact hk)
    intro m hm
    rw [hlen] at hm
    unfold setCellWith
    by_cases ham : a = m
    · subst ham
      rw [getD_set_self _ _ _ _ hm]
      exact hg _ (h a hm)
    · rw [getD_set_ne _ _ _ _ _ ham]
      exact h m hm

theorem inv_rows (p : Params) (hv : p.Valid) (s : GridState) (hInv : Inv p s)
    (n : Nat) : Inv p (rowsStepState p n s) := by
  obtain ⟨q, hq, hq1, hq2⟩ := hInv.lc
  unfold rowsStepState outState toggle_group_in_first_n_rows
  rw [hq]
  simp only [Option.getD_some]
  have hfg : ∀ c : List String,
      "focus" ∈ class_turn_off_keep_delete (class_toggle_grouped c) ↔ "focus" ∈ c := by
    intro c
    rw [mem_turn_off_other _ _ (by decide) (by decide),
      mem_toggle_grouped_other _ _ (by decide) (by decide)]
  refine inv_mk p _ q (by rw [foldl_setCellWith_length, hInv.len]) hq1 hq2 ?_ ?_
  · intro k hk hkq
    rw [foldl_setCellWith_length] at hk
    intro hmem
    exact hInv.focus_lc k hk
      (fun q' hq' => by rw [hq] at hq'; cases hq'; exact hkq)
      ((foldl_setCellWith_focus _ hfg _ s.classes k).mp hmem)
  · intro k hk
    rw [foldl_setCellWith_length] at hk
    exact foldl_setCellWith_good _ (fun c hc => goodCell_turn_off_toggle hc) _ s.classes
      hInv.good k hk

theorem pyDec_lt (x n : Nat) (hn : 0 < n) : pyDec x n < n := by
  unfold pyDec
  have h₁ : 0 ≤ ((x : Int) - 1) % (n : Int) := Int.emod_nonneg _ (by omega)
  have h₂ : ((x : Int) - 1) % (n : Int) < (n : Int) := Int.emod_lt_of_pos _ (by exact_mod_cast hn)
  omega

theorem pyDecBy_lt (x k n : Nat) (hn : 0 < n) : pyDecBy x k n < n := by
  unfold pyDecBy
  have h₁ : 0 ≤ ((x : Int) - (k : Int)) % (n : Int) := Int.emod_nonneg _ (by omega)
  have h₂ : ((x : Int) - (k : Int)) % (n : Int) < (n : Int) :=
    Int.emod_lt_of_pos _ (by exact_mod_cast hn)
  omega

theorem dirTarget_fst_lt (d : Dir) (n_rows n_cols : Nat) (q : Nat × Nat)
    (hq1 : q.1 < n_rows) (hnr : 0 < n_rows) :
    (dirTarget d n_rows n_cols q).1 < n_rows := by
  cases d
  · exact hq1
  · exact hq1
  · exact pyDec_lt _ _ hnr
  · exact Nat.mod_lt _ hnr

theorem dirTarget_snd_lt (d : Dir) (n_rows n_cols : Nat) (q : Nat × Nat)
    (hq2 : q.2 < n_cols) (hnc : 0 < n_cols) :
    (dirTarget d n_rows n_cols q).2 < n_cols := by
  cases d
  · exact pyDec_lt _ _ hnc
  · exact Nat.mod_lt _ hnc
  · exact hq2
  · exact hq2

theorem inv_move (p : Params) (hv : p.Valid) (s : GridState) (hInv : Inv p s)
    (d : Dir) : Inv p (dirStepState p d s) := by
  obtain ⟨q, hq, hq1, hq2⟩ := hInv.lc
  obtain ⟨hnr, hrm, hnc, hcm⟩ := hv
  have hqIdx : q.1 * p.cols_max + q.2 < s.classes.length := by
    rw [hInv.len]; exact cellIdx_lt hq1 hq2 hrm hcm
  have ht1 : (dirTarget d p.n_rows p.n_cols q).1 < p.n_rows := dirTarget_fst_lt d _ _ q hq1 hnr
  have ht2 : (dirTarget d p.n_rows p.n_cols q).2 < p.n_cols := dirTarget_snd_lt d _ _ q hq2 hnc
  have htIdx : (dirTarget d p.n_rows p.n_cols q).1 * p.cols_max
      + (dirTarget d p.n_rows p.n_cols q).2 < s.classes.length := by
    rw [hInv.len]; exact cellIdx_lt ht1 ht2 hrm hcm
  have hswapT : (dirTarget d p.n_rows p.n_cols q).2
      + (dirTarget d p.n_rows p.n_cols q).1 * p.cols_max
      = (dirTarget d p.n_rows p.n_cols q).1 * p.cols_max
        + (dirTarget d p.n_rows p.n_cols q).2 := Nat.add_comm _ _
  have hcheck : ¬ (s.classes.getD ((dirTarget d p.n_rows p.n_cols q).2
      + (dirTarget d p.n_rows p.n_cols q).1 * p.cols_max) [] = []) := by
    rw [hswapT]
    exact goodCell_nonempty (hInv.good _ htIdx)
  unfold dirStepState outState direction_key_pressed
  rw [hq]
  simp only [Option.getD_some]
  rw [if_pos hcheck]
  dsimp only
  by_cases himg : 0 < p.image_list.length ∧ p.image_list.length
      ≤ (dirTarget d p.n_rows p.n_cols q).2 + (dirTarget d p.n_rows p.n_cols q).1 * p.n_cols
  case pos =>
    rw [if_pos himg]
    exact hInv
  case neg =>
  rw [if_neg himg]
  by_cases hf : "focus" ∈ s.classes.getD (q.1 * p.cols_max + q.2) []
  · rw [if_pos hf]
    have hnlen : (s.classes.set (q.1 * p.cols_max + q.2)
        (class_toggle_focus (s.classes.getD (q.1 * p.cols_max + q.2) []))).length
          = s.classes.length := List.length_set _ _ _
    have hncsF : ∀ k, k < s.classes.length →
        "focus" ∉ (s.classes.set (q.1 * p.cols_max + q.2)
          (class_toggle_focus (s.classes.getD (q.1 * p.cols_max + q.2) []))).getD k [] := by
      intro k hk
      by_cases hkq : q.1 * p.cols_max + q.2 = k
      · subst hkq
        rw [getD_set_self _ _ _ _ hqIdx]
        intro hmem
        exact (mem_toggle_focus_self _).mp hmem hf
      · rw [getD_set_ne _ _ _ _ _ hkq]
        exact hInv.focus_lc k hk
          (fun q' hq' => by rw [hq] at hq'; cases hq'; exact fun h => hkq h.symm)
    have hncsG : ∀ k, k < s.classes.length →
        GoodCell ((s.classes.set (q.1 * p.cols_max + q.2)
          (class_toggle_focus (s.classes.getD (q.1 * p.cols_max + q.2) []))).getD k []) := by
      intro k hk
      by_cases hkq : q.1 * p.cols_max + q.2 = k
      · subst hkq
        rw [getD_set_self _ _ _ _ hqIdx]
        exact goodCell_toggle_focus (hInv.good _ hqIdx)
      · rw [getD_set_ne _ _ _ _ _ hkq]
        exact hInv.good k hk
    refine inv_mk p _ _ (by rw [List.length_set, hnlen, hInv.len]) ht1 ht2 ?_ ?_
    · intro k hk hkt
      rw [List.length_set, hnlen] at hk
      rw [getD_set_ne _ _ _ _ _ (fun h => hkt h.symm)]
      exact hncsF k hk
    · intro k hk
      rw [List.length_set, hnlen] at hk
      by_cases htk : (dirTarget d p.n_rows p.n_cols q).1 * p.cols_max
          + (dirTarget d p.n_rows p.n_cols q).2 = k
      · subst htk
        rw [getD_set_self _ _ _ _ (by rw [hnlen]; exact htIdx)]
        exact goodCell_toggle_focus (hncsG _ htIdx)
      · rw [getD_set_ne _ _ _ _ _ htk]
        exact hncsG k hk
  · rw [if_neg hf]
    have hncsF : ∀ k, k < s.classes.length → "focus" ∉ s.classes.getD k [] := by
      intro k hk
      by_cases hkq : q.1 * p.cols_max + q.2 = k
      · subst hkq; exact hf
      · exact hInv.focus_lc k hk
          (fun q' hq' => by rw [hq] at hq'; cases hq'; exact fun h => hkq h.symm)
    refine inv_mk p _ _ (by rw [List.length_set, hInv.len]) ht1 ht2 ?_ ?_
    · intro k hk hkt
      rw [List.length_set] at hk
      rw [getD_set_ne _ _ _ _ _ (fun h => hkt h.symm)]
      exact hncsF k hk
    · intro k hk
      rw [List.length_set] at hk
      by_cases htk : (dirTarget d p.n_rows p.n_cols q).1 * p.cols_max
          + (dirTarget d p.n_rows p.n_cols q).2 = k
      · subst htk
        rw [getD_set_self _ _ _ _ htIdx]
        exact goodCell_toggle_focus (hInv.good _ htIdx)
      · rw [getD_set_ne _ _ _ _ _ htk]
        exact hInv.good k hk

theorem inv_click_mk (p : Params) (base : List (List String)) (r c : Nat)
    (hr : r < p.n_rows) (hc : c < p.n_cols)
    (hlen : base.length = p.rows_max * p.cols_max)
    (hidx : r * p.cols_max + c < base.length)
    (hbF : ∀ k, k < base.length → k ≠ r * p.cols_max + c → "focus" ∉ base.getD k [])
    (hbG : ∀ k, k < base.length → GoodCell (base.getD k []))
    (nc : List String) (hnc : GoodCell nc) :
    Inv p ⟨base.set (r * p.cols_max + c) nc, some (r, c)⟩ := by
  refine inv_mk p _ (r, c) (by rw [List.length_set, hlen]) hr hc ?_ ?_
  · intro k hk hkt
    rw [List.length_set] at hk
    rw [getD_set_ne _ _ _ _ _ (fun h => hkt h.symm)]
    exact hbF k hk hkt
  · intro k hk
    rw [List.length_set] at hk
    by_cases hkt : r * p.cols_max + c = k
    · subst hkt
      rw [getD_set_self _ _ _ _ hidx]
      exact hnc
    · rw [getD_set_ne _ _ _ _ _ hkt]
      exact hbG k hk

theorem inv_click (p : Params) (hv : p.Valid) (s : GridState) (hInv : Inv p s)
    {r c : Nat} {out : List (List String) × (Nat × Nat)}
    (hr : r < p.n_rows) (hc : c < p.n_cols)
    (heq : image_cell_pressed (r, c) p.cols_max s.classes s.lastClicked = some out) :
    Inv p (outState out) := by
  obtain ⟨q, hq, hq1, hq2⟩ := hInv.lc
  obtain ⟨hnr, hrm, hnc, hcm⟩ := hv
  have hclickIdx : r * p.cols_max + c < s.classes.length := by
    rw [hInv.len]; exact cellIdx_lt hr hc hrm hcm
  have hqIdx : q.1 * p.cols_max + q.2 < s.classes.length := by
    rw [hInv.len]; exact cellIdx_lt hq1 hq2 hrm hcm
  have hswapC : c + r * p.cols_max = r * p.cols_max + c := Nat.add_comm _ _
  have hswapQ : q.2 + q.1 * p.cols_max = q.1 * p.cols_max + q.2 := Nat.add_comm _ _
  have hGood : GoodCell (s.classes.getD (c + r * p.cols_max) []) := by
    rw [hswapC]; exact hInv.good _ hclickIdx
  unfold image_cell_pressed at heq
  rw [hq] at heq
  simp only [Option.getD_some] at heq
  by_cases hqc : q = (r, c)
  · -- the clicked cell is the last-clicked cell
    rw [if_neg (not_not_intro hqc)] at heq
    have hbF : ∀ k, k < s.classes.length → k ≠ r * p.cols_max + c →
        "focus" ∉ s.classes.getD k [] := by
      intro k hk hkt
      exact hInv.focus_lc k hk
        (fun q' hq' => by rw [hq] at hq'; cases hq'; rw [hqc]; exact hkt)
    rcases h₁ : hGood.1 with ⟨hon, hoff⟩ | ⟨hoffm, honn⟩
    · by_cases hf : "focus" ∈ s.classes.getD (c + r * p.cols_max) []
      · -- grouped-on, focus: the focused grouped cell is clicked off
        rw [if_neg (fun h => hoff h.1), if_neg (fun h => hoff h.1),
          if_neg (fun h => h.2 hf), if_pos hon] at heq
        dsimp only at heq
        simp only [Option.some.injEq] at heq
        subst heq
        exact inv_click_mk p s.classes r c hr hc hInv.len hclickIdx hbF hInv.good _
          (goodCell_turn_off_toggle (goodCell_toggle_focus hGood))
      · -- grouped-on, no focus
        rw [if_neg (fun h => hoff h.1), if_neg (fun h => hoff h.1),
          if_pos ⟨hon, hf⟩] at heq
        dsimp only at heq
        simp only [Option.some.injEq] at heq
        subst heq
        exact inv_click_mk p s.classes r c hr hc hInv.len hclickIdx hbF hInv.good _
          (goodCell_toggle_focus hGood)
    · by_cases hf : "focus" ∈ s.classes.getD (c + r * p.cols_max) []
      · -- grouped-off, focus
        rw [if_neg (fun h => h.2 hf), if_pos ⟨hoffm, hf⟩] at heq
        dsimp only at heq
        simp only [Option.some.injEq] at heq
        subst heq
        exact inv_click_mk p s.classes r c hr hc hInv.len hclickIdx hbF hInv.good _
          (goodCell_group_on hGood hoffm)
      · -- grouped-off, no focus
        rw [if_pos ⟨hoffm, hf⟩] at heq
        dsimp only at heq
        simp only [Option.some.injEq] at heq
        subst heq
        exact inv_click_mk p s.classes r c hr hc hInv.len hclickIdx hbF hInv.good _
          (goodCell_group_on (goodCell_toggle_focus hGood)
            ((mem_toggle_focus_other _ _ (by decide)).mpr hoffm))
  · -- a different cell is clicked
    rw [if_pos hqc] at heq
    have hneIdx : q.1 * p.cols_max + q.2 ≠ r * p.cols_max + c := by
      intro h
      obtain ⟨h₁, h₂⟩ := cellIdx_inj (lt_of_lt_of_le hq2 hcm) (lt_of_lt_of_le hc hcm) h
      exact hqc (Prod.ext h₁ h₂)
    have hFpcc : "focus" ∉ s.classes.getD (c + r * p.cols_max) [] := by
      rw [hswapC]
      exact hInv.focus_lc _ hclickIdx
        (fun q' hq' => by rw [hq] at hq'; cases hq'; exact fun h => hneIdx h.symm)
    by_cases hfpc : "focus" ∈ s.classes.getD (q.2 + q.1 * p.cols_max) []
    · -- the previous cell yields focus
      rw [if_neg (not_not_intro hfpc), if_pos ⟨hfpc, hFpcc⟩] at heq
      have hbLen : (s.classes.set (q.2 + q.1 * p.cols_max)
          (class_toggle_focus (s.classes.getD (q.2 + q.1 * p.cols_max) []))).length
            = s.classes.length := List.length_set _ _ _
      have hbF : ∀ k, k < (s.classes.set (q.2 + q.1 * p.cols_max)
          (class_toggle_focus (s.classes.getD (q.2 + q.1 * p.cols_max) []))).length →
          k ≠ r * p.cols_max + c →
          "focus" ∉ (s.classes.set (q.2 + q.1 * p.cols_max)
            (class_toggle_focus (s.classes.getD (q.2 + q.1 * p.cols_max) []))).getD k [] := by
        intro k hk hkt
        rw [hbLen] at hk
        by_cases hkq : q.2 + q.1 * p.cols_max = k
        · subst hkq
          rw [getD_set_self _ _ _ _ (by rw [hswapQ]; exact hqIdx)]
          intro hmem
          exact (mem_toggle_focus_self _).mp hmem hfpc
        · rw [getD_set_ne _ _ _ _ _ hkq]
          exact hInv.focus_lc k hk
            (fun q' hq' => by
              rw [hq] at hq'; cases hq'
              exact fun h => hkq (hswapQ.trans h.symm))
      have hbG : ∀ k, k < (s.classes.set (q.2 + q.1 * p.cols_max)
          (class_toggle_focus (s.classes.getD (q.2 + q.1 * p.cols_max) []))).length →
          GoodCell ((s.classes.set (q.2 + q.1 * p.cols_max)
            (class_toggle_focus (s.classes.getD (q.2 + q.1 * p.cols_max) []))).getD k []) := by
        intro k hk
        rw [hbLen] at hk
        by_cases hkq : q.2 + q.1 * p.cols_max = k
        · subst hkq
          rw [getD_set_self _ _ _ _ (by rw [hswapQ]; exact hqIdx)]
          refine goodCell_toggle_focus ?_
          rw [hswapQ]
          exact hInv.good _ hqIdx
        · rw [getD_set_ne _ _ _ _ _ hkq]
          exact hInv.good k hk
      rcases h₁ : hGood.1 with ⟨hon, hoff⟩ | ⟨hoffm, honn⟩
      · rw [if_neg (fun h => hoff h.1), if_neg (fun h => hoff h.1),
          if_pos ⟨hon, hFpcc⟩] at heq
        dsimp only at heq
        simp only [Option.some.injEq] at heq
        subst heq
        exact inv_click_mk p _ r c hr hc (by rw [hbLen, hInv.len])
          (by rw [hbLen]; exact hclickIdx) hbF hbG _ (goodCell_toggle_focus hGood)
      · rw [if_pos ⟨hoffm, hFpcc⟩] at heq
        dsimp only at heq
        simp only [Option.some.injEq] at heq
        subst heq
        exact inv_click_mk p _ r c hr hc (by rw [hbLen, hInv.len])
          (by rw [hbLen]; exact hclickIdx) hbF hbG _
          (goodCell_group_on (goodCell_toggle_focus hGood)
            ((mem_toggle_focus_other _ _ (by decide)).mpr hoffm))
    · -- the previous cell did not have focus: its overwrite is the identity
      rw [if_pos hfpc] at heq
      rw [set_getD_self _ _ _ (by rw [hswapQ]; exact hqIdx)] at heq
      have hbF : ∀ k, k < s.classes.length → k ≠ r * p.cols_max + c →
          "focus" ∉ s.classes.getD k [] := by
        intro k hk hkt
        by_cases hkq : q.2 + q.1 * p.cols_max = k
        · subst hkq; exact hfpc
        · exact hInv.focus_lc k hk
            (fun q' hq' => by
              rw [hq] at hq'; cases hq'
              exact fun h => hkq (hswapQ.trans h.symm))
      rcases h₁ : hGood.1 with ⟨hon, hoff⟩ | ⟨hoffm, honn⟩
      · rw [if_neg (fun h => hoff h.1), if_neg (fun h => hoff h.1),
          if_pos ⟨hon, hFpcc⟩] at heq
        dsimp only at heq
        simp only [Option.some.injEq] at heq
        subst heq
        exact inv_click_mk p s.classes r c hr hc hInv.len hclickIdx hbF hInv.good _
          (goodCell_toggle_focus hGood)
      · rw [if_pos ⟨hoffm, hFpcc⟩] at heq
        dsimp only at heq
        simp only [Option.some.injEq] at heq
        subst heq
        exact inv_click_mk p s.classes r c hr hc hInv.len hclickIdx hbF hInv.good _
          (goodCell_group_on (goodCell_toggle_focus hGood)
            ((mem_toggle_focus_other _ _ (by decide)).mpr hoffm))

/-- Every reachable state satisfies the run invariant. -/
theorem reach_inv (p : Params) (hv : p.Valid) (s : GridState) (h : Reach p s) : Inv p s := by
  induction h with
  | init => exact inv_resize p hv
  | resize _ _ => exact inv_resize p hv
  | click _ hr hc heq ih => exact inv_click p hv _ ih hr hc heq
  | move d _ ih => exact inv_move p hv _ ih d
  | rows n _ ih => exact inv_rows p hv _ ih n
  | keepDel b _ ih => exact inv_keep_delete p hv _ ih b

theorem countP_le_one_of_unique {α : Type} (pr : α → Bool) :
    ∀ (l : List α) (m : Nat),
      (∀ k, (hk : k < l.length) → k ≠ m → pr (l.get ⟨k, hk⟩) = false) →
      l.countP pr ≤ 1 := by
  intro l
  induction l with
  | nil => intro m _; simp
  | cons a l ih =>
    intro m h
    rw [List.countP_cons]
    cases m with
    | zero =>
      have hzero : l.countP pr = 0 := by
        rw [List.countP_eq_zero]
        intro x hx
        obtain ⟨k, rfl⟩ := List.mem_iff_get.mp hx
        intro hcon
        have hfalse := h (k.1 + 1) (by simpa using k.isLt) (by omega)
        rw [show ((a :: l).get ⟨k.1 + 1, by simpa using k.isLt⟩) = l.get k from by
          simp [List.get_cons_succ]] at hfalse
        rw [hfalse] at hcon
        cases hcon
      rw [hzero]
      split <;> omega
    | succ m' =>
      have ha : pr a = false := h 0 (by simp) (by omega)
      have hl : l.countP pr ≤ 1 := by
        refine ih m' ?_
        intro k hk hkm
        have := h (k + 1) (by simpa using hk) (by omega)
        simpa [List.get_cons_succ] using this
      rw [ha]
      simpa using hl

theorem focusCount_le_one (p : Params) (s : GridState) (hInv : Inv p s) :
    focusCount s ≤ 1 := by
  unfold focusCount
  obtain ⟨q, hq, _, _⟩ := hInv.lc
  refine countP_le_one_of_unique _ _ (cellIdx p.cols_max q) ?_
  intro k hk hkm
  have hnf := hInv.focus_lc k hk (fun q' hq' => by rw [hq] at hq'; cases hq'; exact hkm)
  rw [List.getD_eq_getElem _ _ hk] at hnf
  simp only [List.get_eq_getElem]
  exact decide_eq_false hnf

theorem resize_focusCount (rm cm : Nat) (hrm : 0 < rm) (hcm : 0 < cm) :
    focusCount (resize_grid_pressed rm cm) = 1 := by
  obtain ⟨r, rfl⟩ : ∃ r, rm = r + 1 := ⟨rm - 1, by omega⟩
  obtain ⟨c, rfl⟩ : ∃ c, cm = c + 1 := ⟨cm - 1, by omega⟩
  unfold focusCount
  rw [resize_classes_eq, List.countP_cons]
  have hzero : (List.replicate (c + r * (c + 1)) ["grouped-off"]).countP
      (fun cl => decide ("focus" ∈ cl)) = 0 := by
    rw [List.countP_eq_zero]
    intro x hx
    rw [List.eq_of_mem_replicate hx]
    decide
  rw [hzero]
  decide

/--
**C5** counterexample: start from a Resize of the 7×7 grid (a non-empty
visible rectangle) and click cell (0,0) twice — the first click groups the
focused cell, the second click un-groups the focused grouped cell and
*clears focus*, so after two interactions the grid has zero focused cells,
contradicting "the number of cells carrying focus is always exactly 1 once
any interaction has occurred" and "no interaction leaves the grid with
zero focused cells".
-/
theorem focus_lost_after_two_clicks :
    ((image_cell_pressed (0, 0) 7 (resize_grid_pressed 7 7).classes
        (resize_grid_pressed 7 7).lastClicked).bind
      (fun out => image_cell_pressed (0, 0) 7 out.1 (some out.2))).map
        (fun out => focusCount (outState out))
      = some 0 := by
  decide

/--
**C5** (amended): in every state reachable from a Resize through the
transition callbacks at most one cell carries focus (never two), and the
Resize itself always leaves exactly one focused cell — cell (0,0) —
whatever the visible rectangle is (the handler ignores `n_rows`/`n_cols`).
Zero focused cells can occur after an interaction: clicking the focused,
grouped cell clears focus (see the counterexample), so "exactly 1 after
any interaction" does not hold.
-/
theorem focus_at_most_one (p : Params) (hv : p.Valid) (s : GridState) (hreach : Reach p s) :
    focusCount s ≤ 1
      ∧ focusCount (resize_grid_pressed p.rows_max p.cols_max) = 1 := by
  obtain ⟨hnr, hrm, hnc, hcm⟩ := hv
  exact ⟨focusCount_le_one p s (reach_inv p ⟨hnr, hrm, hnc, hcm⟩ s hreach),
    resize_focusCount _ _ (by omega) (by omega)⟩

/-- Witness for the amended C5 at the initial resize state of a 2×2 view
on the 7×7 grid. -/
theorem focus_at_most_one_witness :
    (Params.Valid ⟨2, 2, 7, 7, []⟩)
      ∧ (focusCount (resize_grid_pressed 7 7) ≤ 1
          ∧ focusCount (resize_grid_pressed 7 7) = 1) :=
  ⟨by decide, focus_at_most_one ⟨2, 2, 7, 7, []⟩ (by decide) _ Reach.init⟩

/--
**C6**: in every state reachable by the transition operations (cell click,
row-select toggle, keep/delete, directional move, resize), no cell carries
a `keep` or `delete` label while ungrouped: a label token implies the
`grouped-on` token.
-/
theorem label_implies_grouped (p : Params) (hv : p.Valid) (s : GridState)
    (hreach : Reach p s) :
    ∀ k, k < s.classes.length →
      ("keep" ∈ s.classes.getD k [] ∨ "delete" ∈ s.classes.getD k []) →
      "grouped-on" ∈ s.classes.getD k [] :=
  fun k hk hl => ((reach_inv p hv s hreach).good k hk).2 hl

/-- Witness for C6 at the initial resize state of a 2×2 view on the 7×7 grid. -/
theorem label_implies_grouped_witness :
    (Params.Valid ⟨2, 2, 7, 7, []⟩)
      ∧ (∀ k, k < (resize_grid_pressed 7 7).classes.length →
          ("keep" ∈ (resize_grid_pressed 7 7).classes.getD k []
              ∨ "delete" ∈ (resize_grid_pressed 7 7).classes.getD k []) →
          "grouped-on" ∈ (resize_grid_pressed 7 7).classes.getD k []) :=
  ⟨by decide, label_implies_grouped ⟨2, 2, 7, 7, []⟩ (by decide) _ Reach.init⟩

/-! ### Focus normal form -/

theorem filter_focus_eq_self {c : List String} (h : "focus" ∉ c) :
    c.filter (fun t => t ≠ "focus") = c := by
  rw [List.filter_eq_self]
  intro a ha
  have hne : a ≠ "focus" := fun hcon => h (hcon ▸ ha)
  simp [hne]

theorem focus_not_mem_filter (c : List String) :
    "focus" ∉ c.filter (fun t => t ≠ "focus") := by
  simp [List.mem_filter]

theorem filter_ctf (c : List String) :
    (class_toggle_focus c).filter (fun t => t ≠ "focus")
      = c.filter (fun t => t ≠ "focus") := by
  unfold class_toggle_focus
  split_ifs with h
  · rw [List.filter_filter]
    apply List.filter_congr
    intro a _
    rw [Bool.and_self]
  · rw [List.filter_append]
    simp

theorem filter_set_ctf (cs : List (List String)) (idx k : Nat) :
    ((cs.set idx (class_toggle_focus (cs.getD idx []))).getD k []).filter (fun t => t ≠ "focus")
      = ((cs.getD k []).filter (fun t => t ≠ "focus")) := by
  by_cases hik : idx = k
  · subst hik
    by_cases hlt : idx < cs.length
    · rw [getD_set_self _ _ _ _ hlt, filter_ctf]
    · rw [List.set_eq_of_length_le (by omega)]
  · rw [getD_set_ne _ _ _ _ _ hik]

theorem stripF_length (cs : List (List String)) : (stripF cs).length = cs.length := by
  unfold stripF
  exact List.length_map _ _

theorem stripF_getD (cs : List (List String)) (k : Nat) :
    (stripF cs).getD k [] = (cs.getD k []).filter (fun t => t ≠ "focus") := by
  by_cases hk : k < cs.length
  · rw [List.getD_eq_getElem _ _ (by rw [stripF_length]; exact hk),
      List.getD_eq_getElem _ _ hk]
    unfold stripF
    simp
  · rw [List.getD_eq_default _ _ (by rw [stripF_length]; omega),
      List.getD_eq_default _ _ (by omega)]
    rfl

theorem stripF_eq_self {cs : List (List String)}
    (h : ∀ k, k < cs.length → "focus" ∉ cs.getD k []) : stripF cs = cs := by
  apply List.ext_getElem
  · exact stripF_length cs
  · intro k h₁ h₂
    rw [← List.getD_eq_getElem _ ([] : List String) h₁, ← List.getD_eq_getElem _ ([] : List String) h₂,
      stripF_getD]
    exact filter_focus_eq_self (h k h₂)

theorem stripF_set (cs : List (List String)) (idx : Nat) (x : List String) :
    stripF (cs.set idx x) = (stripF cs).set idx (x.filter (fun t => t ≠ "focus")) := by
  unfold stripF
  exact List.map_set

theorem stripF_idem (cs : List (List String)) : stripF (stripF cs) = stripF cs := by
  unfold stripF
  rw [List.map_map]
  apply List.map_congr_left
  intro a _
  simp only [Function.comp]
  rw [List.filter_filter]
  apply List.filter_congr
  intro b _
  rw [Bool.and_self]

theorem stripF_focusAt (cs : List (List String)) (k : Nat) :
    stripF (focusAt cs k) = stripF cs := by
  unfold focusAt
  rw [stripF_set, List.filter_append]
  have h₁ : ((["focus"] : List String).filter (fun t => t ≠ "focus")) = [] := by decide
  rw [h₁, List.append_nil, stripF_idem, stripF_getD]
  have h₂ : ((cs.getD k []).filter (fun t => t ≠ "focus")).filter (fun t => t ≠ "focus")
      = (cs.getD k []).filter (fun t => t ≠ "focus") := by
    rw [List.filter_filter]
    apply List.filter_congr
    intro b _
    rw [Bool.and_self]
  rw [h₂]
  by_cases hk : k < cs.length
  · rw [show ((cs.getD k []).filter (fun t => t ≠ "focus")) = (stripF cs).getD k [] from
      (stripF_getD cs k).symm]
    exact set_getD_self _ _ _ (by rw [stripF_length]; exact hk)
  · exact List.set_eq_of_length_le (by rw [stripF_length]; omega)

theorem focusAt_congr {cs₁ cs₂ : List (List String)} (h : stripF cs₁ = stripF cs₂) (k : Nat) :
    focusAt cs₁ k = focusAt cs₂ k := by
  unfold focusAt
  rw [h]

theorem focusAt_length (cs : List (List String)) (k : Nat) :
    (focusAt cs k).length = cs.length := by
  unfold focusAt
  rw [List.length_set, stripF_length]

theorem focusAt_getD_ne (cs : List (List String)) {k j : Nat} (h : k ≠ j) :
    (focusAt cs k).getD j [] = (stripF cs).getD j [] := by
  unfold focusAt
  exact getD_set_ne _ _ _ _ _ h

theorem focusAt_getD_self (cs : List (List String)) {k : Nat} (h : k < cs.length) :
    (focusAt cs k).getD k [] = (stripF cs).getD k [] ++ ["focus"] := by
  unfold focusAt
  exact getD_set_self _ _ _ _ (by rw [stripF_length]; exact h)

theorem focusAt_focus_only (cs : List (List String)) (k : Nat) :
    ∀ j, j < (focusAt cs k).length → j ≠ k → "focus" ∉ (focusAt cs k).getD j [] := by
  intro j _ hjk
  rw [focusAt_getD_ne cs (fun h => hjk h.symm), stripF_getD]
  exact focus_not_mem_filter _

theorem goodCell_strip {c : List String} (h : GoodCell c) :
    GoodCell (c.filter (fun t => t ≠ "focus")) := by
  have hmem : ∀ t : String, t ≠ "focus" →
      (t ∈ c.filter (fun t => t ≠ "focus") ↔ t ∈ c) := by
    intro t ht
    simp [List.mem_filter, ht]
  obtain ⟨hg, hl⟩ := h
  constructor
  · rcases hg with ⟨h₁, h₂⟩ | ⟨h₁, h₂⟩
    · exact Or.inl ⟨(hmem _ (by decide)).mpr h₁, fun hm => h₂ ((hmem _ (by decide)).mp hm)⟩
    · exact Or.inr ⟨(hmem _ (by decide)).mpr h₁, fun hm => h₂ ((hmem _ (by decide)).mp hm)⟩
  · intro hm
    refine (hmem _ (by decide)).mpr (hl ?_)
    rcases hm with hm | hm
    · exact Or.inl ((hmem _ (by decide)).mp hm)
    · exact Or.inr ((hmem _ (by decide)).mp hm)

theorem goodCell_append_focus {c : List String} (h : GoodCell c) :
    GoodCell (c ++ ["focus"]) := by
  have hmem : ∀ t : String, t ≠ "focus" → (t ∈ c ++ ["focus"] ↔ t ∈ c) := by
    intro t ht
    simp [ht]
  obtain ⟨hg, hl⟩ := h
  constructor
  · rcases hg with ⟨h₁, h₂⟩ | ⟨h₁, h₂⟩
    · exact Or.inl ⟨(hmem _ (by decide)).mpr h₁, fun hm => h₂ ((hmem _ (by decide)).mp hm)⟩
    · exact Or.inr ⟨(hmem _ (by decide)).mpr h₁, fun hm => h₂ ((hmem _ (by decide)).mp hm)⟩
  · intro hm
    refine (hmem _ (by decide)).mpr (hl ?_)
    rcases hm with hm | hm
    · exact Or.inl ((hmem _ (by decide)).mp hm)
    · exact Or.inr ((hmem _ (by decide)).mp hm)

theorem focusAt_good (cs : List (List String)) (k : Nat)
    (hg : ∀ j, j < cs.length → GoodCell (cs.getD j [])) :
    ∀ j, j < (focusAt cs k).length → GoodCell ((focusAt cs k).getD j []) := by
  intro j hj
  rw [focusAt_length] at hj
  by_cases hkj : k = j
  · subst hkj
    rw [focusAt_getD_self cs hj, stripF_getD]
    exact goodCell_append_focus (goodCell_strip (hg _ hj))
  · rw [focusAt_getD_ne cs hkj, stripF_getD]
    exact goodCell_strip (hg _ hj)

theorem class_toggle_focus_of_not_mem {c : List String} (h : "focus" ∉ c) :
    class_toggle_focus c = c ++ ["focus"] := by
  unfold class_toggle_focus
  rw [if_neg h]

theorem class_toggle_focus_of_mem {c : List String} (h : "focus" ∈ c) :
    class_toggle_focus c = c.filter (fun t => t ≠ "focus") := by
  unfold class_toggle_focus
  rw [if_pos h]

theorem moveFocus_nf (cs : List (List String)) (qIdx tIdx : Nat)
    (hq : qIdx < cs.length)
    (hfoc : ∀ k, k < cs.length → k ≠ qIdx → "focus" ∉ cs.getD k []) :
    (if "focus" ∈ cs.getD qIdx [] then
        cs.set qIdx (class_toggle_focus (cs.getD qIdx [])) else cs).set tIdx
      (class_toggle_focus
        ((if "focus" ∈ cs.getD qIdx [] then
            cs.set qIdx (class_toggle_focus (cs.getD qIdx [])) else cs).getD tIdx []))
      = focusAt cs tIdx := by
  have hstrip : (if "focus" ∈ cs.getD qIdx [] then
      cs.set qIdx (class_toggle_focus (cs.getD qIdx [])) else cs) = stripF cs := by
    split_ifs with hf
    · rw [class_toggle_focus_of_mem hf]
      apply List.ext_getElem?
      intro k
      rw [List.getElem?_set]
      unfold stripF
      rw [List.getElem?_map]
      by_cases hk : qIdx = k
      · subst hk
        rw [if_pos rfl, if_pos hq, List.getElem?_eq_getElem hq,
          List.getD_eq_getElem _ ([] : List String) hq]
        rfl
      · rw [if_neg hk]
        by_cases hlt : k < cs.length
        · rw [List.getElem?_eq_getElem hlt]
          have hnof : "focus" ∉ cs[k] := by
            have := hfoc k hlt (fun h => hk h.symm)
            rwa [List.getD_eq_getElem _ ([] : List String) hlt] at this
          rw [show Option.map (fun c => c.filter (fun t => t ≠ "focus")) (some cs[k])
              = some (cs[k].filter (fun t => t ≠ "focus")) from rfl,
            filter_focus_eq_self hnof]
        · rw [List.getElem?_eq_none (by omega)]
          rfl
    · symm
      apply stripF_eq_self
      intro k hk
      by_cases hkq : k = qIdx
      · subst hkq; exact hf
      · exact hfoc k hk hkq
  rw [hstrip]
  have hnof : "focus" ∉ (stripF cs).getD tIdx [] := by
    rw [stripF_getD]
    exact focus_not_mem_filter _
  rw [class_toggle_focus_of_not_mem hnof]
  rfl

theorem direction_key_pressed_nf (p : Params) (hv : p.Valid) (cs : List (List String))
    (q : Nat × Nat) (hq1 : q.1 < p.n_rows) (hq2 : q.2 < p.n_cols)
    (hlen : cs.length = p.rows_max * p.cols_max)
    (hfoc : ∀ k, k < cs.length → k ≠ q.1 * p.cols_max + q.2 → "focus" ∉ cs.getD k [])
    (hgood : ∀ k, k < cs.length → GoodCell (cs.getD k [])) (d : Dir)
    (himg : ¬ (0 < p.image_list.length ∧ p.image_list.length
      ≤ (dirTarget d p.n_rows p.n_cols q).2 + (dirTarget d p.n_rows p.n_cols q).1 * p.n_cols)) :
    direction_key_pressed d p.n_rows p.n_cols p.cols_max p.image_list cs (some q)
      = some (focusAt cs ((dirTarget d p.n_rows p.n_cols q).1 * p.cols_max
            + (dirTarget d p.n_rows p.n_cols q).2),
         dirTarget d p.n_rows p.n_cols q) := by
  obtain ⟨hnr, hrm, hnc, hcm⟩ := hv
  have ht1 := dirTarget_fst_lt d _ p.n_cols q hq1 hnr
  have ht2 := dirTarget_snd_lt d p.n_rows _ q hq2 hnc
  have hqIdx : q.1 * p.cols_max + q.2 < cs.length := by
    rw [hlen]; exact cellIdx_lt hq1 hq2 hrm hcm
  have htIdx : (dirTarget d p.n_rows p.n_cols q).1 * p.cols_max
      + (dirTarget d p.n_rows p.n_cols q).2 < cs.length := by
    rw [hlen]; exact cellIdx_lt ht1 ht2 hrm hcm
  have hcheck : ¬ (cs.getD ((dirTarget d p.n_rows p.n_cols q).2
      + (dirTarget d p.n_rows p.n_cols q).1 * p.cols_max) [] = []) := by
    rw [show (dirTarget d p.n_rows p.n_cols q).2 + (dirTarget d p.n_rows p.n_cols q).1 * p.cols_max
        = (dirTarget d p.n_rows p.n_cols q).1 * p.cols_max + (dirTarget d p.n_rows p.n_cols q).2
      from Nat.add_comm _ _]
    exact goodCell_nonempty (hgood _ htIdx)
  unfold direction_key_pressed
  simp only [Option.getD_some]
  rw [if_pos hcheck]
  dsimp only
  rw [if_neg himg]
  exact congrArg some
    (Prod.ext (moveFocus_nf cs (q.1 * p.cols_max + q.2) _ hqIdx hfoc) rfl)

theorem jumpTarget_fst_lt (jl : Bool) (n_cells n_cols : Nat) (q : Nat × Nat) :
    (jumpTarget jl n_cells n_cols q).1 = q.1 := by
  unfold jumpTarget
  split_ifs <;> rfl

theorem jumpTarget_snd_lt (jl : Bool) (n_cells n_cols : Nat) (q : Nat × Nat)
    (hn : 0 < n_cols) : (jumpTarget jl n_cells n_cols q).2 < n_cols := by
  unfold jumpTarget
  split_ifs
  · exact pyDecBy_lt _ _ _ hn
  · exact Nat.mod_lt _ hn

theorem jump_focus_n_cells_nf (p : Params) (hv : p.Valid) (cs : List (List String))
    (q : Nat × Nat) (hq1 : q.1 < p.n_rows) (hq2 : q.2 < p.n_cols)
    (hlen : cs.length = p.rows_max * p.cols_max)
    (hfoc : ∀ k, k < cs.length → k ≠ q.1 * p.cols_max + q.2 → "focus" ∉ cs.getD k [])
    (hgood : ∀ k, k < cs.length → GoodCell (cs.getD k [])) (jl : Bool) (n_cells : Nat)
    (himg : ¬ (0 < p.image_list.length ∧ p.image_list.length
      ≤ (jumpTarget jl n_cells p.n_cols q).2 + (jumpTarget jl n_cells p.n_cols q).1 * p.n_cols)) :
    jump_focus_n_cells jl n_cells p.n_rows p.n_cols p.cols_max p.image_list cs (some q)
      = some (focusAt cs ((jumpTarget jl n_cells p.n_cols q).1 * p.cols_max
            + (jumpTarget jl n_cells p.n_cols q).2),
         jumpTarget jl n_cells p.n_cols q) := by
  obtain ⟨hnr, hrm, hnc, hcm⟩ := hv
  have ht1 : (jumpTarget jl n_cells p.n_cols q).1 < p.n_rows := by
    rw [jumpTarget_fst_lt]; exact hq1
  have ht2 := jumpTarget_snd_lt jl n_cells p.n_cols q hnc
  have hqIdx : q.1 * p.cols_max + q.2 < cs.length := by
    rw [hlen]; exact cellIdx_lt hq1 hq2 hrm hcm
  have htIdx : (jumpTarget jl n_cells p.n_cols q).1 * p.cols_max
      + (jumpTarget jl n_cells p.n_cols q).2 < cs.length := by
    rw [hlen]; exact cellIdx_lt ht1 ht2 hrm hcm
  have hcheck : ¬ (cs.getD ((jumpTarget jl n_cells p.n_cols q).2
      + (jumpTarget jl n_cells p.n_cols q).1 * p.cols_max) [] = []) := by
    rw [show (jumpTarget jl n_cells p.n_cols q).2
          + (jumpTarget jl n_cells p.n_cols q).1 * p.cols_max
        = (jumpTarget jl n_cells p.n_cols q).1 * p.cols_max
          + (jumpTarget jl n_cells p.n_cols q).2
      from Nat.add_comm _ _]
    exact goodCell_nonempty (hgood _ htIdx)
  unfold jump_focus_n_cells
  simp only [Option.getD_some]
  rw [if_pos hcheck]
  dsimp only
  rw [if_neg himg]
  exact congrArg some
    (Prod.ext (moveFocus_nf cs (q.1 * p.cols_max + q.2) _ hqIdx hfoc) rfl)

theorem no_abort_of_cover (il : List String) (n_cols row col : Nat)
    (hcol : col < n_cols) (hcover : il = [] ∨ (row + 1) * n_cols ≤ il.length) :
    ¬ (0 < il.length ∧ il.length ≤ col + row * n_cols) := by
  rcases hcover with h | h
  · rw [h]; simp
  · have h1 : (row + 1) * n_cols = row * n_cols + n_cols := by ring
    rw [h1] at h
    rintro ⟨-, h2⟩
    omega

theorem dirTarget_horiz_fst (d : Dir) (n_rows n_cols : Nat) (q : Nat × Nat)
    (hd : d = Dir.left ∨ d = Dir.right) :
    (dirTarget d n_rows n_cols q).1 = q.1 := by
  rcases hd with rfl | rfl <;> rfl

theorem dirTarget_horiz_iter_fst (d : Dir) (n_rows n_cols : Nat) (q : Nat × Nat)
    (hd : d = Dir.left ∨ d = Dir.right) :
    ∀ m, ((dirTarget d n_rows n_cols)^[m] q).1 = q.1 := by
  intro m
  induction m with
  | zero => rfl
  | succ m ih =>
    rw [Function.iterate_succ_apply', dirTarget_horiz_fst _ _ _ _ hd, ih]

theorem dirTarget_iter_bounds (d : Dir) (n_rows n_cols : Nat)
    (hnr : 0 < n_rows) (hnc : 0 < n_cols) (q : Nat × Nat)
    (hq1 : q.1 < n_rows) (hq2 : q.2 < n_cols) :
    ∀ m, ((dirTarget d n_rows n_cols)^[m] q).1 < n_rows
      ∧ ((dirTarget d n_rows n_cols)^[m] q).2 < n_cols := by
  intro m
  induction m with
  | zero => exact ⟨hq1, hq2⟩
  | succ m ih =>
    rw [Function.iterate_succ_apply']
    exact ⟨dirTarget_fst_lt d _ _ _ ih.1 hnr, dirTarget_snd_lt d _ _ _ ih.2 hnc⟩

theorem dirStepState_iter (p : Params) (hv : p.Valid) (s : GridState)
    (q : Nat × Nat) (hq : s.lastClicked = some q)
    (hq1 : q.1 < p.n_rows) (hq2 : q.2 < p.n_cols)
    (hlen : s.classes.length = p.rows_max * p.cols_max)
    (hfoc : ∀ k, k < s.classes.length → k ≠ q.1 * p.cols_max + q.2 →
      "focus" ∉ s.classes.getD k [])
    (hgood : ∀ k, k < s.classes.length → GoodCell (s.classes.getD k [])) (d : Dir)
    (hd : d = Dir.left ∨ d = Dir.right)
    (himg : p.image_list = [] ∨ (q.1 + 1) * p.n_cols ≤ p.image_list.length) :
    ∀ m, (dirStepState p d)^[m + 1] s
      = ⟨focusAt s.classes (cellIdx p.cols_max ((dirTarget d p.n_rows p.n_cols)^[m + 1] q)),
         some ((dirTarget d p.n_rows p.n_cols)^[m + 1] q)⟩ := by
  obtain ⟨hnr, hrm, hnc, hcm⟩ := hv
  intro m
  induction m with
  | zero =>
    have habort : ¬ (0 < p.image_list.length ∧ p.image_list.length
        ≤ (dirTarget d p.n_rows p.n_cols q).2 + (dirTarget d p.n_rows p.n_cols q).1 * p.n_cols) := by
      rw [dirTarget_horiz_fst d p.n_rows p.n_cols q hd]
      exact no_abort_of_cover _ _ _ _ (dirTarget_snd_lt d p.n_rows p.n_cols q hq2 hnc) himg
    rw [Function.iterate_one, Function.iterate_one]
    unfold dirStepState outState
    rw [hq]
    rw [direction_key_pressed_nf p ⟨hnr, hrm, hnc, hcm⟩ s.classes q hq1 hq2 hlen hfoc hgood
      d habort]
  | succ m ih =>
    rw [Function.iterate_succ_apply', ih]
    have htb := dirTarget_iter_bounds d p.n_rows p.n_cols hnr hnc q hq1 hq2 (m + 1)
    have habort : ¬ (0 < p.image_list.length ∧ p.image_list.length
        ≤ (dirTarget d p.n_rows p.n_cols ((dirTarget d p.n_rows p.n_cols)^[m + 1] q)).2
          + (dirTarget d p.n_rows p.n_cols ((dirTarget d p.n_rows p.n_cols)^[m + 1] q)).1
            * p.n_cols) := by
      rw [dirTarget_horiz_fst d p.n_rows p.n_cols _ hd,
        dirTarget_horiz_iter_fst d p.n_rows p.n_cols q hd (m + 1)]
      exact no_abort_of_cover _ _ _ _
        (dirTarget_snd_lt d p.n_rows p.n_cols _ htb.2 hnc) himg
    unfold dirStepState outState
    dsimp only
    rw [direction_key_pressed_nf p ⟨hnr, hrm, hnc, hcm⟩
      (focusAt s.classes (cellIdx p.cols_max ((dirTarget d p.n_rows p.n_cols)^[m + 1] q)))
      ((dirTarget d p.n_rows p.n_cols)^[m + 1] q) htb.1 htb.2
      (by rw [focusAt_length]; exact hlen)
      (fun k hk hkt => focusAt_focus_only _ _ k hk hkt)
      (focusAt_good _ _ (fun j hj => hgood j hj)) d habort]
    rw [focusAt_congr (stripF_focusAt s.classes
      (cellIdx p.cols_max ((dirTarget d p.n_rows p.n_cols)^[m + 1] q)))]
    rw [Function.iterate_succ_apply' (dirTarget d p.n_rows p.n_cols) (m + 1) q]

theorem dirTarget_right_iter (n_rows n_cols : Nat) (hnc : 0 < n_cols)
    (q : Nat × Nat) (hq2 : q.2 < n_cols) :
    ∀ m, (dirTarget Dir.right n_rows n_cols)^[m] q = (q.1, (q.2 + m) % n_cols) := by
  intro m
  induction m with
  | zero =>
    rw [Function.iterate_zero_apply]
    exact Prod.ext rfl (by rw [Nat.add_zero, Nat.mod_eq_of_lt hq2])
  | succ m ih =>
    rw [Function.iterate_succ_apply', ih]
    refine Prod.ext rfl ?_
    show ((q.2 + m) % n_cols + 1) % n_cols = (q.2 + (m + 1)) % n_cols
    rw [Nat.mod_add_mod, Nat.add_assoc]

theorem pyDec_pyDecBy (j m n : Nat) (hn : 0 < n) :
    pyDec (pyDecBy j m n) n = pyDecBy j (m + 1) n := by
  unfold pyDec pyDecBy
  have h0 : 0 ≤ ((j : Int) - (m : Int)) % (n : Int) := Int.emod_nonneg _ (by omega)
  rw [Int.toNat_of_nonneg h0]
  congr 1
  calc (((j : Int) - (m : Int)) % (n : Int) - 1) % (n : Int)
      = ((((j : Int) - (m : Int)) % (n : Int)) % (n : Int) - 1 % (n : Int)) % (n : Int) :=
        Int.sub_emod _ _ _
    _ = (((j : Int) - (m : Int)) % (n : Int) - 1 % (n : Int)) % (n : Int) := by
        rw [Int.emod_emod_of_dvd _ dvd_rfl]
    _ = (((j : Int) - (m : Int)) - 1) % (n : Int) := (Int.sub_emod _ _ _).symm
    _ = ((j : Int) - ((m : Nat) + 1 : Nat)) % (n : Int) := by
        push_cast
        ring_nf

theorem dirTarget_left_iter (n_rows n_cols : Nat) (hnc : 0 < n_cols)
    (q : Nat × Nat) (hq2 : q.2 < n_cols) :
    ∀ m, (dirTarget Dir.left n_rows n_cols)^[m] q = (q.1, pyDecBy q.2 m n_cols) := by
  intro m
  induction m with
  | zero =>
    rw [Function.iterate_zero_apply]
    refine Prod.ext rfl ?_
    show q.2 = pyDecBy q.2 0 n_cols
    unfold pyDecBy
    rw [show ((q.2 : Int) - ((0 : Nat) : Int)) = (q.2 : Int) from by push_cast; ring,
      Int.emod_eq_of_lt (by omega) (by exact_mod_cast hq2)]
    omega
  | succ m ih =>
    rw [Function.iterate_succ_apply', ih]
    refine Prod.ext rfl ?_
    show pyDec (pyDecBy q.2 m n_cols) n_cols = pyDecBy q.2 (m + 1) n_cols
    exact pyDec_pyDecBy _ _ _ hnc

theorem dirStep_filter_eq (p : Params) (d : Dir) (s : GridState) (k : Nat) :
    ((dirStepState p d s).classes.getD k []).filter (fun t => t ≠ "focus")
      = (s.classes.getD k []).filter (fun t => t ≠ "focus") := by
  unfold dirStepState outState direction_key_pressed
  dsimp only
  split_ifs <;> first | rfl | simp only [filter_set_ctf]

/--
**C8 counterexample**: in the reachable post-commit state `sCommit`
(full 7×7 view, 48 unmasked images, focus at (6,0)), `n_cols = 7` Right
moves do NOT return `cell_last_clicked` to the original cell: the sixth
press targets (6,6), whose zoom lookup index 48 is out of range for the
48-image list, so `direction_key_pressed` raises and the move aborts; the
run ends at (6,5).
-/
theorem directional_wrap_fails_after_commit :
    Reach pCommit sCommit
      ∧ sCommit.lastClicked = some (6, 0)
      ∧ "focus" ∈ sCommit.classes.getD (cellIdx 7 (6, 0)) []
      ∧ ((dirStepState pCommit Dir.right)^[pCommit.n_cols] sCommit).lastClicked = some (6, 5)
      ∧ some (6, 5) ≠ sCommit.lastClicked := by
  refine ⟨?_, rfl, by decide, by decide, by decide⟩
  have h6 : sCommit = (dirStepState pCommit Dir.down)^[6]
      (resize_grid_pressed pCommit.rows_max pCommit.cols_max) := by decide
  rw [h6]
  exact Reach.move Dir.down (Reach.move Dir.down (Reach.move Dir.down (Reach.move Dir.down
    (Reach.move Dir.down (Reach.move Dir.down Reach.init)))))

/--
**C8 (amended)**: from any reachable-state focus cell in the visible
rectangle, PROVIDED the unmasked image list is empty or covers the whole
focus row (`(q.1 + 1) * n_cols ≤ image_list.length`, so no move on the
row can hit the out-of-range zoom lookup of `utils.py:591-592`),
applying DirectionalMove(right) `n_cols` times returns focus to the
original cell (same `cell_last_clicked`, same set of focused cells); and
unconditionally, every single directional move — aborted or not — leaves
the grouped flag and the keep/delete label of every cell unchanged: only
the `focus` token moves (each cell's class list with `focus` filtered out
is preserved exactly).
-/
theorem directional_wrap_and_state_untouched (p : Params) (hv : p.Valid) (s : GridState)
    (q : Nat × Nat) (hq : s.lastClicked = some q) (hInv : Inv p s)
    (hfocus : "focus" ∈ s.classes.getD (cellIdx p.cols_max q) [])
    (himg : p.image_list = [] ∨ (q.1 + 1) * p.n_cols ≤ p.image_list.length) :
    ((dirStepState p Dir.right)^[p.n_cols] s).lastClicked = s.lastClicked
      ∧ (∀ k, ("focus" ∈ ((dirStepState p Dir.right)^[p.n_cols] s).classes.getD k []
            ↔ "focus" ∈ s.classes.getD k []))
      ∧ (∀ (d : Dir) (k : Nat),
          ((dirStepState p d s).classes.getD k []).filter (fun t => t ≠ "focus")
            = (s.classes.getD k []).filter (fun t => t ≠ "focus")) := by
  obtain ⟨hnr, hrm, hnc, hcm⟩ := hv
  obtain ⟨q', hq'', hq1, hq2⟩ := hInv.lc
  rw [hq] at hq''
  injection hq'' with hq''
  subst hq''
  have hfoc : ∀ k, k < s.classes.length → k ≠ q.1 * p.cols_max + q.2 →
      "focus" ∉ s.classes.getD k [] :=
    fun k hk hkq => hInv.focus_lc k hk
      (fun q'' hq₃ => by rw [hq] at hq₃; cases hq₃; exact hkq)
  have hqIdx : cellIdx p.cols_max q < s.classes.length := by
    rw [hInv.len]; exact cellIdx_lt hq1 hq2 hrm hcm
  obtain ⟨m, hm⟩ : ∃ m, p.n_cols = m + 1 := ⟨p.n_cols - 1, by omega⟩
  have hiter := dirStepState_iter p ⟨hnr, hrm, hnc, hcm⟩ s q hq hq1 hq2
    hInv.len hfoc hInv.good Dir.right (Or.inr rfl) himg m
  rw [← hm] at hiter
  have htgt : (dirTarget Dir.right p.n_rows p.n_cols)^[p.n_cols] q = q := by
    rw [dirTarget_right_iter p.n_rows p.n_cols hnc q hq2 p.n_cols]
    refine Prod.ext rfl ?_
    show (q.2 + p.n_cols) % p.n_cols = q.2
    rw [Nat.add_mod_right, Nat.mod_eq_of_lt hq2]
  rw [htgt] at hiter
  refine ⟨?_, ?_, ?_⟩
  · rw [hiter, hq]
  · intro k
    rw [hiter]
    by_cases hk : k = cellIdx p.cols_max q
    · subst hk
      constructor
      · intro _; exact hfocus
      · intro _
        rw [focusAt_getD_self s.classes hqIdx]
        simp
    · constructor
      · intro hmem
        exfalso
        by_cases hklen : k < s.classes.length
        · exact focusAt_focus_only _ _ k (by rw [focusAt_length]; exact hklen) hk hmem
        · rw [List.getD_eq_default _ _ (by rw [focusAt_length]; omega)] at hmem
          cases hmem
      · intro hmem
        exfalso
        by_cases hklen : k < s.classes.length
        · exact hfoc k hklen hk hmem
        · rw [List.getD_eq_default _ _ (by omega)] at hmem
          cases hmem
  · intro d k
    exact dirStep_filter_eq p d s k

/-- Witness for C8 at the initial resize state of a 2×2 view on the 7×7
grid, with focus at (0,0). -/
theorem directional_wrap_and_state_untouched_witness :
    ("focus" ∈ (resize_grid_pressed 7 7).classes.getD (cellIdx 7 (0, 0)) [])
      ∧ (((dirStepState ⟨2, 2, 7, 7, []⟩ Dir.right)^[2] (resize_grid_pressed 7 7)).lastClicked
            = (resize_grid_pressed 7 7).lastClicked
          ∧ (∀ k, ("focus" ∈
                ((dirStepState ⟨2, 2, 7, 7, []⟩ Dir.right)^[2]
                  (resize_grid_pressed 7 7)).classes.getD k []
              ↔ "focus" ∈ (resize_grid_pressed 7 7).classes.getD k []))
          ∧ (∀ (d : Dir) (k : Nat),
              ((dirStepState ⟨2, 2, 7, 7, []⟩ d (resize_grid_pressed 7 7)).classes.getD k []).filter
                  (fun t => t ≠ "focus")
                = ((resize_grid_pressed 7 7).classes.getD k []).filter
                    (fun t => t ≠ "focus"))) :=
  ⟨by decide,
    directional_wrap_and_state_untouched ⟨2, 2, 7, 7, []⟩ (by decide) (resize_grid_pressed 7 7)
      (0, 0) rfl (inv_resize ⟨2, 2, 7, 7, []⟩ (by decide)) (by decide) (Or.inl rfl)⟩

/--
**C9 counterexample**: in the reachable post-commit state `sJump`
(full 7×7 view, 48 unmasked images, focus at (6,4)), a 2-cell right jump
does not equal two right moves: the jump targets (6,6), whose zoom lookup
index 48 is out of range, so the whole jump aborts in place at (6,4);
the two moves instead advance to (6,5) and only then abort, ending at
(6,5) — different `cell_last_clicked` and different classes.
-/
theorem jump_mismatches_moves_after_commit :
    Reach pCommit sJump
      ∧ (jumpStepState pCommit false 2 sJump).lastClicked = some (6, 4)
      ∧ ((dirStepState pCommit Dir.right)^[2] sJump).lastClicked = some (6, 5)
      ∧ jumpStepState pCommit false 2 sJump
          ≠ (dirStepState pCommit Dir.right)^[2] sJump := by
  refine ⟨?_, by decide, by decide, by decide⟩
  have h10 : sJump = (dirStepState pCommit Dir.right)^[4]
      ((dirStepState pCommit Dir.down)^[6]
        (resize_grid_pressed pCommit.rows_max pCommit.cols_max)) := by decide
  rw [h10]
  exact Reach.move Dir.right (Reach.move Dir.right (Reach.move Dir.right (Reach.move Dir.right
    (Reach.move Dir.down (Reach.move Dir.down (Reach.move Dir.down (Reach.move Dir.down
      (Reach.move Dir.down (Reach.move Dir.down Reach.init)))))))))

/--
**C9 (amended)**: for every state satisfying the run invariant (any
reachable state) whose focus row is covered by the unmasked image list
(`image_list = []` or `(q.1 + 1) * n_cols ≤ image_list.length`, so neither
the jump nor any of the moves can hit the out-of-range zoom lookup of
`utils.py:591-592`) and every `k ≥ 1`, the single modulo-arithmetic
JumpMove equals applying DirectionalMove in the same horizontal direction
`k` times in sequence — identical resulting classes and
`cell_last_clicked`.  (`jump_focus_n_cells` is modelled from the spec:
the source only contains its call site, which offers left/right jumps of
2–7 cells; its zoom lookup is modelled after the sibling handlers'.)
-/
theorem jump_matches_iterated_moves (p : Params) (hv : p.Valid) (s : GridState)
    (hInv : Inv p s) (q : Nat × Nat) (hq : s.lastClicked = some q)
    (himg : p.image_list = [] ∨ (q.1 + 1) * p.n_cols ≤ p.image_list.length)
    (jl : Bool) (n_cells : Nat) (hk : 1 ≤ n_cells) :
    jumpStepState p jl n_cells s
      = (dirStepState p (if jl then Dir.left else Dir.right))^[n_cells] s := by
  obtain ⟨hnr, hrm, hnc, hcm⟩ := hv
  obtain ⟨q', hq', hq1, hq2⟩ := hInv.lc
  rw [hq] at hq'
  injection hq' with hq'
  subst hq'
  have hfoc : ∀ k, k < s.classes.length → k ≠ q.1 * p.cols_max + q.2 →
      "focus" ∉ s.classes.getD k [] :=
    fun k hk' hkq => hInv.focus_lc k hk'
      (fun q'' hq₃ => by rw [hq] at hq₃; cases hq₃; exact hkq)
  obtain ⟨m, rfl⟩ : ∃ m, n_cells = m + 1 := ⟨n_cells - 1, by omega⟩
  cases jl
  · show jumpStepState p false (m + 1) s = (dirStepState p Dir.right)^[m + 1] s
    have habortJ : ¬ (0 < p.image_list.length ∧ p.image_list.length
        ≤ (jumpTarget false (m + 1) p.n_cols q).2
          + (jumpTarget false (m + 1) p.n_cols q).1 * p.n_cols) := by
      rw [jumpTarget_fst_lt]
      exact no_abort_of_cover _ _ _ _
        (jumpTarget_snd_lt false (m + 1) p.n_cols q hnc) himg
    rw [dirStepState_iter p ⟨hnr, hrm, hnc, hcm⟩ s q hq hq1 hq2 hInv.len hfoc hInv.good
      Dir.right (Or.inr rfl) himg m]
    unfold jumpStepState outState
    rw [hq]
    rw [jump_focus_n_cells_nf p ⟨hnr, hrm, hnc, hcm⟩ s.classes q hq1 hq2 hInv.len hfoc
      hInv.good false (m + 1) habortJ]
    have htgt : jumpTarget false (m + 1) p.n_cols q
        = (dirTarget Dir.right p.n_rows p.n_cols)^[m + 1] q := by
      rw [dirTarget_right_iter p.n_rows p.n_cols hnc q hq2 (m + 1)]
      rfl
    rw [htgt]
  · show jumpStepState p true (m + 1) s = (dirStepState p Dir.left)^[m + 1] s
    have habortJ : ¬ (0 < p.image_list.length ∧ p.image_list.length
        ≤ (jumpTarget true (m + 1) p.n_cols q).2
          + (jumpTarget true (m + 1) p.n_cols q).1 * p.n_cols) := by
      rw [jumpTarget_fst_lt]
      exact no_abort_of_cover _ _ _ _
        (jumpTarget_snd_lt true (m + 1) p.n_cols q hnc) himg
    rw [dirStepState_iter p ⟨hnr, hrm, hnc, hcm⟩ s q hq hq1 hq2 hInv.len hfoc hInv.good
      Dir.left (Or.inl rfl) himg m]
    unfold jumpStepState outState
    rw [hq]
    rw [jump_focus_n_cells_nf p ⟨hnr, hrm, hnc, hcm⟩ s.classes q hq1 hq2 hInv.len hfoc
      hInv.good true (m + 1) habortJ]
    have htgt : jumpTarget true (m + 1) p.n_cols q
        = (dirTarget Dir.left p.n_rows p.n_cols)^[m + 1] q := by
      rw [dirTarget_left_iter p.n_rows p.n_cols hnc q hq2 (m + 1)]
      rfl
    rw [htgt]

/-- Witness for C9: a 2-cell right jump from the resize state of a 2×2
view on the 7×7 grid with an empty image list equals two right moves. -/
theorem jump_matches_iterated_moves_witness :
    1 ≤ 2
      ∧ jumpStepState ⟨2, 2, 7, 7, []⟩ false 2 (resize_grid_pressed 7 7)
          = (dirStepState ⟨2, 2, 7, 7, []⟩ Dir.right)^[2] (resize_grid_pressed 7 7) :=
  ⟨by decide,
    jump_matches_iterated_moves ⟨2, 2, 7, 7, []⟩ (by decide) (resize_grid_pressed 7 7)
      (inv_resize ⟨2, 2, 7, 7, []⟩ (by decide)) (0, 0) rfl (Or.inl rfl) false 2 (by decide)⟩

end ImageSelector
